import Mathlib

/-!
Verification development for the `redis-parser` JavaScript library
(`JavascriptRedisParser`, RESP2/RESP3 streaming decoder).

The JavaScript source is shallowly embedded:
* a `Buffer` is a `List Nat` of byte values;
* a JS string is represented by its UTF-8 byte sequence (`List Nat`);
  `Buffer#toString('utf8', a, b)` and the incremental string decoder are
  byte-level identities under this representation, so all offset and
  splicing arithmetic from the source is preserved exactly;
* JS numbers appearing in the parser are integer-valued (offsets, lengths,
  digit accumulators); every such quantity stays far below 2^53, where
  double arithmetic is exact, so they are modelled as `Int`;
* `undefined` returns are `Option`/`PR.undef`, thrown exceptions are
  `PR.exn` / `Out.thrown`;
* the callback channels (`returnReply`, `returnError`, `returnFatalError`,
  `pushReply`, the `RESP:ATTRIBUTE` event) become an ordered event trace.
-/

set_option maxHeartbeats 1000000

namespace RedisParser

/-- Byte access `buf[i]` on a JS Buffer/array: out-of-range or negative
index yields `undefined`, modelled as `none`. -/
def jsGet (buf : List Nat) (i : Int) : Option Nat :=
  if i < 0 then none else buf.get? i.toNat

/-- Byte read used inside the numeric scanning loops, where the source
does integer arithmetic on the byte.  At every reachable call the index is
in range (the dispatcher has already consumed a byte at `i - 1 ≥ 0` and the
loop bound keeps `i` below the buffer length); the default stands for the
out-of-range read that would poison the JS accumulator with NaN and is
never hit from the public entry points. -/
def jsByte (buf : List Nat) (i : Int) : Int :=
  match jsGet buf i with
  | some b => (b : Int)
  | none => -(10 ^ 9)

/-- `Buffer.prototype.slice(start, end)` byte content (Node semantics:
negative indices count from the end, results clamped to `[0, len]`). -/
def jsBufSlice (buf : List Nat) (start stop : Int) : List Nat :=
  let len : Int := buf.length
  let s := if start < 0 then max (len + start) 0 else min start len
  let e := if stop < 0 then max (len + stop) 0 else min stop len
  if e ≤ s then [] else (buf.drop s.toNat).take (e - s).toNat

/-- `Buffer.prototype.slice(start)` (to the end of the buffer). -/
def jsBufSliceFrom (buf : List Nat) (start : Int) : List Nat :=
  jsBufSlice buf start buf.length

/-- `Buffer.prototype.toString('utf8', start, end)` byte content
(Node semantics: `start ≤ 0 → 0`, `start ≥ len → ''`, `end > len → len`,
`end ≤ start → ''`). -/
def jsToString (buf : List Nat) (start stop : Int) : List Nat :=
  let len : Int := buf.length
  if start ≤ 0 then
    let e := if stop > len then len else stop
    if e ≤ 0 then [] else buf.take e.toNat
  else if start ≥ len then []
  else
    let e := if stop > len then len else stop
    if e ≤ start then [] else (buf.drop start.toNat).take (e - start).toNat

/-- `String.prototype.indexOf(ch)`: index of the first occurrence,
`-1` when absent. -/
def jsIndexOf (s : List Nat) (ch : Nat) : Int :=
  match s.findIdx? (fun b => b = ch) with
  | some i => (i : Int)
  | none => -1

/-- `String.prototype.slice(start, end)` on our byte-string model
(negative indices count from the end, clamped). -/
def jsStrSlice (s : List Nat) (start stop : Int) : List Nat :=
  jsBufSlice s start stop

/-- `String.prototype.slice(start)`. -/
def jsStrSliceFrom (s : List Nat) (start : Int) : List Nat :=
  jsBufSliceFrom s start

/-- Decimal digits of a natural number, most significant first, as ASCII
bytes.  Fuel-structured (the fuel argument only needs to dominate the
number of digits) so that it reduces definitionally. -/
def decReprAux : Nat → Nat → List Nat
  | 0, n => [n + 48]
  | fuel + 1, n => if n < 10 then [n + 48] else decReprAux fuel (n / 10) ++ [n % 10 + 48]

/-- ASCII decimal representation of a natural number (`String(n)` in JS
for a nonnegative integer). -/
def decRepr (n : Nat) : List Nat :=
  decReprAux n n

/-- `String(n)` for an integer-valued JS number. -/
def jsNumToStr (n : Int) : List Nat :=
  if n < 0 then 45 :: decRepr (-n).toNat else decRepr n.toNat

/-- A decoded JS value flowing through the parser.  JS strings and Buffers
are byte sequences; a double produced by `parseSimpleDouble` is kept
symbolically as the four integer operands `sign`, `ipart`, `frac`,
`fracLen` of `sign * (ipart + frac / 10 ^ fracLen)` (no claim observes a
double, only that the frame is consumed). -/
inductive JsVal : Type where
  | str (s : List Nat)
  | buf (b : List Nat)
  | num (n : Int)
  | dbl (sign ipart frac fracLen : Int)
  | infV (sign : Int)
  | bigintV (n : Int)
  | nullv
  | undef
  | boolV (b : Bool)
  | arr (xs : List JsVal)
  | setV (xs : List JsVal)
  | mapV (xs : List (JsVal × JsVal))
  | replyErr (msg : List Nat)
  | blobErr (code msg : List Nat)
  | attrSentinel
  deriving Inhabited

/-- SameValueZero, the key-equality used by JS `Map`/`Set`.  Primitives
compare by value; the attribute sentinel is one shared `Symbol`, so two
occurrences are equal; objects (arrays, maps, sets, error objects)
compare by identity, and every object reaching a `Map`/`Set` here is a
freshly parsed one, hence distinct — modelled as `false`. -/
def svz : JsVal → JsVal → Bool
  | .str a, .str b => a == b
  | .buf _, .buf _ => false
  | .num a, .num b => a == b
  | .dbl a b c d, .dbl a' b' c' d' => a == a' && b == b' && c == c' && d == d'
  | .infV a, .infV b => a == b
  | .bigintV a, .bigintV b => a == b
  | .nullv, .nullv => true
  | .undef, .undef => true
  | .boolV a, .boolV b => a == b
  | .attrSentinel, .attrSentinel => true
  | _, _ => false

/-- Build the element list of `new Set(iterable)` from a list: later
duplicates (SameValueZero) are dropped. -/
def jsDedup (xs : List JsVal) : List JsVal :=
  xs.foldl (fun acc x => if acc.any (fun y => svz y x) then acc else acc ++ [x]) []

/-- `Map.prototype.set`: update in place when a SameValueZero-equal key
exists, otherwise append. -/
def jsMapSet (m : List (JsVal × JsVal)) (k v : JsVal) : List (JsVal × JsVal) :=
  if m.any (fun p => svz p.1 k) then m.map (fun p => if svz p.1 k then (p.1, v) else p)
  else m ++ [(k, v)]

/-- Successive pairs `(arr[i], arr[i+1])` for even `i`; a missing odd
element reads as `undefined`. -/
def pairUp : List JsVal → List (JsVal × JsVal)
  | [] => []
  | [a] => [(a, .undef)]
  | a :: b :: t => (a, b) :: pairUp t

/-- `convertToMap` on the element list: `for (i = 0; i < arr.length; i += 2)
res.set(arr[i], arr[i+1])`. -/
def convertToMapL (xs : List JsVal) : List (JsVal × JsVal) :=
  (pairUp xs).foldl (fun m p => jsMapSet m p.1 p.2) []

/-- `convertToMap` applied to an arbitrary value, as the `reply` closure
does.  A non-array value without a `length` property makes the loop body
run zero times (`i < undefined` is false), yielding an empty map; a string
iterates its characters (unreachable here, approximated bytewise). -/
def jsConvertToMap : JsVal → JsVal
  | .arr xs => .mapV (convertToMapL xs)
  | .str s => .mapV (convertToMapL (s.map (fun c => .str [c])))
  | _ => .mapV []

/-- `new Set(iterable)`.  Every reachable call site passes a freshly built
array; the other iterable cases are included for totality, and
non-iterables throw a `TypeError` as in JS. -/
def jsNewSet : JsVal → Except String JsVal
  | .arr xs => .ok (.setV (jsDedup xs))
  | .setV xs => .ok (.setV (jsDedup xs))
  | .mapV xs => .ok (.setV (xs.map (fun p => .arr [p.1, p.2])))
  | .str s => .ok (.setV (jsDedup (s.map (fun c => .str [c]))))
  | .buf bs => .ok (.setV (jsDedup (bs.map (fun c => .num (c : Int)))))
  | _ => .error "TypeError"

/-- `new Array(n)`: a negative (or non-uint32) length throws a
`RangeError`; otherwise an array of `n` holes. -/
def jsNewArray (n : Int) : Except String (List (Option JsVal)) :=
  if n < 0 ∨ n ≥ 2 ^ 32 then .error "RangeError"
  else .ok (List.replicate n.toNat none)

/-- `arr[i] = v` on a JS array with holes: in-range assignment replaces
the slot, assignment past the end extends the array with holes. -/
def jsArrSet (arr : List (Option JsVal)) (i : Int) (v : JsVal) : List (Option JsVal) :=
  if i < 0 then arr
  else if i.toNat < arr.length then arr.set i.toNat (some v)
  else arr ++ List.replicate (i.toNat - arr.length) none ++ [some v]

/-- Reading a completed JS array: holes read as `undefined`. -/
def finalizeArr (arr : List (Option JsVal)) : List JsVal :=
  arr.map (fun o => o.getD .undef)

/-- Callback trace events: `reply` = `returnReply` option, `err` =
`returnError`, `fatal` = `returnFatalError` (carrying the `ParserError`
data: offending type byte, buffer snapshot, offset), `push` = `pushReply`,
`attr` = the `RESP:ATTRIBUTE` emitter. -/
inductive Ev : Type where
  | reply (v : JsVal)
  | err (v : JsVal)
  | push (v : JsVal)
  | attr (v : JsVal)
  | fatal (ty : Option Nat) (snapshot : Option (List Nat)) (off : Int)
  deriving Inhabited

def Ev.isErrEv : Ev → Bool
  | .err _ => true
  | _ => false

def Ev.isPushEv : Ev → Bool
  | .push _ => true
  | _ => false

/-- Mutable state of a `JavascriptRedisParser` instance.  Field names
follow the source; `attrMark` is the source's `attribute` field (a Lean
keyword), and `optionsBigInt` is the distinct (misspelled) field the
constructor initializes and `parseDouble` reads, while `setBigInt` writes
`optionBigInt`. -/
structure St : Type where
  optionReturnBuffers : Bool
  optionStringNumbers : Bool
  optionBigInt : Bool
  optionsBigInt : Bool
  attrMark : Int
  returnBlobError : Bool
  returnMap : Bool
  returnSet : Bool
  pushData : Bool
  offset : Int
  buffer : Option (List Nat)
  bigStrSize : Int
  totalChunkSize : Int
  bufferCache : List (List Nat)
  arrayCache : List (List (Option JsVal))
  arrayPos : List Int
  deriving Inhabited

/-- The buffer as bytes.  The source dereferences `parser.buffer` only
while it is non-null (after `handleError` nulls it, every code path
returns before the next read), so the default is never observed. -/
def St.bufferBytes (st : St) : List Nat :=
  st.buffer.getD []

/-- `reset()`: restore the per-stream state (mode flags are kept). -/
def resetSt (st : St) : St :=
  { st with
    attrMark := -1
    returnBlobError := false
    returnMap := false
    returnSet := false
    pushData := false
    offset := 0
    buffer := none
    bigStrSize := 0
    totalChunkSize := 0
    bufferCache := []
    arrayCache := []
    arrayPos := [] }

/-- A freshly constructed parser with the given mode flags. -/
def mkParser (rb sn bi : Bool) : St :=
  resetSt
    { optionReturnBuffers := rb
      optionStringNumbers := sn
      optionBigInt := bi
      optionsBigInt := false
      attrMark := -1
      returnBlobError := false
      returnMap := false
      returnSet := false
      pushData := false
      offset := 0
      buffer := none
      bigStrSize := 0
      totalChunkSize := 0
      bufferCache := []
      arrayCache := []
      arrayPos := [] }

/-- Result of a decoder: a value, a JS `undefined` return (more data
needed / error already handled), or a thrown exception. -/
inductive PR : Type where
  | val (v : JsVal)
  | undef
  | exn (e : String)
  deriving Inhabited

/-! ### Scalar decoders (no recursion through the dispatcher) -/

/-- The shared scanning loop of `parseSimpleNumbers` and `parseLength`:
`while (offset < stop) { c1 = buf[offset++]; if (c1 === 13) { parser.offset
= offset + 1; return number } number = number*10 + (c1-48) }`.  The fuel is
the exact trip count `(stop - offset).toNat` computed at entry; the result
is `(number, new parser.offset)`. -/
def lengthLoop (buf : List Nat) : Int → Int → Nat → Option (Int × Int)
  | _, _, 0 => none
  | offset, number, n + 1 =>
    let c1 := jsByte buf offset
    if c1 = 13 then some (number, offset + 2)
    else lengthLoop buf (offset + 1) (number * 10 + (c1 - 48)) n

/-- `parseLength`. -/
def parseLength (st : St) : St × Option Int :=
  let buffer := st.bufferBytes
  let stop : Int := (buffer.length : Int) - 1
  match lengthLoop buffer st.offset 0 (stop - st.offset).toNat with
  | some (v, off) => ({ st with offset := off }, some v)
  | none => (st, none)

/-- `parseSimpleNumbers` (`:` without `stringNumbers`/`bigInt`). -/
def parseSimpleNumbers (st : St) : St × PR :=
  let buffer := st.bufferBytes
  let stop : Int := (buffer.length : Int) - 1
  let signed := jsGet buffer st.offset = some 45
  let sign : Int := if signed then -1 else 1
  let offset := if signed then st.offset + 1 else st.offset
  match lengthLoop buffer offset 0 (stop - offset).toNat with
  | some (number, off) => ({ st with offset := off }, .val (.num (sign * number)))
  | none => (st, .undef)

/-- Loop of `parseStringNumbers`: accumulate digits numerically, flushing
the accumulator to the output string at the `429496728` threshold; result
is `(res, new parser.offset)`. -/
def stringNumLoop (buf : List Nat) : Int → Int → List Nat → Nat → Option (List Nat × Int)
  | _, _, _, 0 => none
  | offset, number, res, n + 1 =>
    let c1 := jsByte buf offset
    if c1 = 13 then
      some ((if number ≠ 0 then res ++ jsNumToStr number else res), offset + 2)
    else if number > 429496728 then
      stringNumLoop buf (offset + 1) 0 (res ++ jsNumToStr (number * 10 + (c1 - 48))) n
    else if c1 = 48 ∧ number = 0 then
      stringNumLoop buf (offset + 1) number (res ++ jsNumToStr 0) n
    else
      stringNumLoop buf (offset + 1) (number * 10 + (c1 - 48)) res n

/-- `parseStringNumbers` (`:` under the `stringNumbers` option). -/
def parseStringNumbers (st : St) : St × PR :=
  let buffer := st.bufferBytes
  let stop : Int := (buffer.length : Int) - 1
  let signed := jsGet buffer st.offset = some 45
  let res0 : List Nat := if signed then [45] else []
  let offset := if signed then st.offset + 1 else st.offset
  match stringNumLoop buffer offset 0 res0 (stop - offset).toNat with
  | some (res, off) => ({ st with offset := off }, .val (.str res))
  | none => (st, .undef)

/-- `BigInt(s)` on a decimal string: empty string is `0n`, a bare sign or
a non-digit throws a `SyntaxError` (`none`). -/
def jsBigIntOfStr (s : List Nat) : Option Int :=
  let core := fun (ds : List Nat) =>
    if ds = [] then none
    else if ds.all (fun b => 48 ≤ b ∧ b ≤ 57) then
      some (ds.foldl (fun acc b => acc * 10 + ((b : Int) - 48)) 0)
    else none
  match s with
  | [] => some 0
  | 45 :: rest => (core rest).map (fun n => -n)
  | _ => core s

/-- `parseInteger` (`:` dispatch on the numeric mode flags). -/
def parseInteger (st : St) : St × PR :=
  if st.optionStringNumbers = true then parseStringNumbers st
  else if st.optionBigInt = true then
    match parseStringNumbers st with
    | (st', .val (.str s)) =>
      match jsBigIntOfStr s with
      | some n => (st', .val (.bigintV n))
      | none => (st', .exn "SyntaxError")
    | (st', .val _) => (st', .exn "SyntaxError")
    | (st', .undef) => (st', .undef)
    | (st', .exn e) => (st', .exn e)
  else parseSimpleNumbers st

/-- CR scan of `parseSimpleString`: `while (offset < stop) if
(buffer[offset++] === 13) …`; returns the incremented offset (one past the
CR) on success.  The following byte is never inspected. -/
def scanCR (buf : List Nat) : Int → Nat → Option Int
  | _, 0 => none
  | offset, n + 1 =>
    if jsByte buf offset = 13 then some (offset + 1)
    else scanCR buf (offset + 1) n

/-- `parseSimpleString` (`+`, also the scanning core of `-` and of
`parseDouble` under `stringNumbers`). -/
def parseSimpleString (st : St) : St × PR :=
  let buffer := st.bufferBytes
  let start := st.offset
  let stop : Int := (buffer.length : Int) - 1
  match scanCR buffer start (stop - start).toNat with
  | some offNext =>
    let st := { st with offset := offNext + 1 }
    if st.optionReturnBuffers = true then
      (st, .val (.buf (jsBufSlice buffer start (offNext - 1))))
    else
      (st, .val (.str (jsToString buffer start (offNext - 1))))
  | none => (st, .undef)

/-- `parseError` (`-`): wrap the simple-string text in a `ReplyError`
(converting a Buffer result back to a string first). -/
def parseError (st : St) : St × PR :=
  match parseSimpleString st with
  | (st', .val (.str s)) => (st', .val (.replyErr s))
  | (st', .val (.buf s)) => (st', .val (.replyErr s))
  | (st', .val _) => (st', .val (.replyErr []))
  | (st', .undef) => (st', .undef)
  | (st', .exn e) => (st', .exn e)

/-- `parseBulkString` (`$` and `=`). -/
def parseBulkString (st : St) : St × PR :=
  match parseLength st with
  | (st, none) => (st, .undef)
  | (st, some length) =>
    let buffer := st.bufferBytes
    let offset := st.offset + length
    if offset + 2 > (buffer.length : Int) then
      ({ st with
          bigStrSize := offset + 2
          totalChunkSize := (buffer.length : Int)
          bufferCache := st.bufferCache ++ [buffer] }, .undef)
    else
      let start := st.offset
      let st := { st with offset := offset + 2 }
      if st.optionReturnBuffers = true then
        (st, .val (.buf (jsBufSlice buffer start offset)))
      else
        (st, .val (.str (jsToString buffer start offset)))

/-- `parseNull` (`_`): skip two bytes unchecked. -/
def parseNull (st : St) : St × PR :=
  if st.offset + 2 > (st.bufferBytes.length : Int) then (st, .undef)
  else ({ st with offset := st.offset + 2 }, .val .nullv)

/-- `parseBoolean` (`#`): needs three bytes after the tag, consumes all
three, and the value is just `buffer[offset] === 116`; nothing else is
validated. -/
def parseBoolean (st : St) : St × PR :=
  if st.offset + 3 > (st.bufferBytes.length : Int) then (st, .undef)
  else ({ st with offset := st.offset + 3 },
    .val (.boolV (jsGet st.bufferBytes st.offset = some 116)))

/-- Loop outcome of `parseSimpleDouble`: a CR-terminated integer part, a
`.` at the recorded position, or buffer exhaustion. -/
inductive DblScan : Type where
  | crFound (number : Int) (off : Int)
  | dotFound (number : Int) (offAfterDot : Int)
  | nothing

def doubleLoop (buf : List Nat) : Int → Int → Nat → DblScan
  | _, _, 0 => .nothing
  | offset, number, n + 1 =>
    let c1 := jsByte buf offset
    if c1 = 46 then .dotFound number (offset + 1)
    else if c1 = 13 then .crFound number (offset + 2)
    else doubleLoop buf (offset + 1) (number * 10 + (c1 - 48)) n

/-- `parseSimpleDouble` (`,` without `stringNumbers`): the fraction is read
by a second `parseLength` run, and the float the source computes from
`sign`, `number`, `res`, `parser.offset - offset - 2` is kept symbolic. -/
def parseSimpleDouble (st : St) : St × PR :=
  let buffer := st.bufferBytes
  let stop : Int := (buffer.length : Int) - 1
  let signed := jsGet buffer st.offset = some 45
  let sign : Int := if signed then -1 else 1
  let offset := if signed then st.offset + 1 else st.offset
  if jsGet buffer offset = some 105 then
    ({ st with offset := offset + 5 }, .val (.infV sign))
  else
    match doubleLoop buffer offset 0 (stop - offset).toNat with
    | .crFound number off => ({ st with offset := off }, .val (.num (sign * number)))
    | .dotFound number offAfterDot =>
      let st' := { st with offset := offAfterDot }
      match parseLength st' with
      | (st'', some res) =>
        (st'', .val (.dbl sign number res (st''.offset - offAfterDot - 2)))
      | (_, none) => (st, .undef)
    | .nothing => (st, .undef)

/-- `parseDouble` (`,`). -/
def parseDouble (st : St) : St × PR :=
  if st.optionStringNumbers then
    if jsGet st.bufferBytes st.offset = some 45 ∧
        jsGet st.bufferBytes (st.offset + 1) = some 105 then
      ({ st with offset := st.offset + 6 }, .val (.str [45, 73, 110, 102, 105, 110, 105, 116, 121]))
    else if jsGet st.bufferBytes st.offset = some 105 then
      ({ st with offset := st.offset + 5 }, .val (.str [73, 110, 102, 105, 110, 105, 116, 121]))
    else parseSimpleString st
  else
    match parseSimpleDouble st with
    | (st', .undef) => (st', .undef)
    | (st', .val v) =>
      if st'.optionsBigInt then
        match v with
        | .num n => (st', .val (.bigintV n))
        | _ => (st', .exn "SyntaxError")
      else (st', .val v)
    | (st', .exn e) => (st', .exn e)

/-- `hasBigIntSupport` (true on every modern Node). -/
def hasBigIntSupport : Bool := true

/-- `parseBigInt` (`(`). -/
def parseBigInt (st : St) : St × PR :=
  match parseStringNumbers st with
  | (st', .val (.str s)) =>
    if hasBigIntSupport then
      match jsBigIntOfStr s with
      | some n => (st', .val (.bigintV n))
      | none => (st', .exn "SyntaxError")
    else (st', .val (.str s))
  | (st', .val _) => (st', .exn "SyntaxError")
  | (st', .undef) => (st', .undef)
  | (st', .exn e) => (st', .exn e)

/-- `convertToBlobError`: split the payload at the first space into the
error code and the message. -/
def convertToBlobError (st : St) (data : JsVal) : JsVal :=
  -- `if (parser.optionReturnBuffers === true) data = data.toString()`
  let data := if st.optionReturnBuffers = true then
      match data with
      | .buf b => JsVal.str b
      | v => v
    else data
  let d : List Nat :=
    match data with
    | .str s => s
    | .buf b => b
    | _ => []
  let codeEnd := jsIndexOf d 32
  .blobErr (jsStrSlice d 0 codeEnd) (jsStrSliceFrom d (codeEnd + 1))

/-- `parseBlobError` (`!`): a bulk string whose completed payload is
converted; the `returnBlobError` flag stays set across an incomplete
parse. -/
def parseBlobError (st : St) : St × PR :=
  let st := { st with returnBlobError := true }
  match parseBulkString st with
  | (st', .undef) => (st', .undef)
  | (st', .val res) =>
    let st'' := { st' with returnBlobError := false }
    (st'', .val (convertToBlobError st'' res))
  | (st', .exn e) => (st', .exn e)

/-! ### The effectful layer: state, event trace, exceptions

Every stateful fragment of the source is a function `St → Out α`: normal
completion carries the (mutated) parser object, the callbacks fired, and a
value; `thrown` is an exception unwinding out of `execute` (callbacks
fired before the throw have already run, and the object keeps its mutated
state).  Written in first-order style — results are combined by explicit
`match`, with `Out.prep` prefixing the events of an earlier step. -/

inductive Out (α : Type) : Type where
  | ok (st : St) (evs : List Ev) (v : α)
  | thrown (st : St) (evs : List Ev) (e : String)

/-- Prefix the events fired by an earlier step onto an outcome. -/
def Out.prep (evs : List Ev) : Out α → Out α
  | .ok st evs2 v => .ok st (evs ++ evs2) v
  | .thrown st evs2 e => .thrown st (evs ++ evs2) e

/-- Lift a scalar decoder (scalars fire no callbacks). -/
def liftScalar (f : St → St × PR) (st : St) : Out (Option JsVal) :=
  match f st with
  | (st2, .val v) => .ok st2 [] (some v)
  | (st2, .undef) => .ok st2 [] none
  | (st2, .exn e) => .thrown st2 [] e

/-- `handleError`: build the `ParserError` (offending byte, buffer
snapshot, offset), null the buffer, fire `returnFatalError`, and return
`undefined`.  Nothing besides `buffer` is cleared. -/
def handleErrorF (ty : Option Nat) (st : St) : Out (Option JsVal) :=
  .ok { st with buffer := none } [.fatal ty st.buffer st.offset] none

/-- `pushArrayCache`. -/
def pushAC (st : St) (arr : List (Option JsVal)) (pos : Int) : St :=
  { st with arrayCache := st.arrayCache ++ [arr], arrayPos := st.arrayPos ++ [pos] }

/-- The closure produced by `reply(parser, reply, push)` and installed as
`this.returnReply`.  Note that a pending set is routed to the *push*
callback (`return push(new Set(data))` in the source). -/
def replyClosure (data : JsVal) (st : St) : Out Unit :=
  if st.attrMark ≠ -1 then
    .ok { st with attrMark := -1 } [.attr data] ()
  else if st.pushData then
    .ok { st with pushData := false } [.push data] ()
  else if st.returnSet then
    match jsNewSet data with
    | .ok v => .ok { st with returnSet := false } [.push v] ()
    | .error e => .thrown { st with returnSet := false } [] e
  else if st.returnMap then
    .ok { st with returnMap := false } [.reply (jsConvertToMap data)] ()
  else if st.returnBlobError then
    .ok { st with returnBlobError := false } [.reply (convertToBlobError st data)] ()
  else
    .ok st [.reply data] ()

/-! ### The mutually recursive aggregate decoders and the dispatcher

The JS functions recurse through `parseType`; the `fuel` argument bounds
the recursion depth and loop trip counts and models the JS call stack
(exhaustion throws, mirroring a stack overflow; every claim below is
evaluated with fuel to spare). -/

mutual

/-- `parseType`: dispatch on the type byte; `some 36`/`some 61` are
`$`/`=`, `some 43` `+`, `some 42` `*`, `some 58` `:`, `some 95` `_`,
`some 35` `#`, `some 44` `,`, `some 40` `(`, `some 37` `%`, `some 126`
`~`, `some 62` `>`, `some 45` `-`, `some 33` `!`, `some 124` `|`; anything
else (including an out-of-range read, `undefined`) is a protocol error. -/
def parseType : Nat → Option Nat → St → Out (Option JsVal)
  | 0, _, st => .thrown st [] "RangeError: Maximum call stack size exceeded"
  | fuel + 1, ty, st =>
    match ty with
    | some 36 => liftScalar parseBulkString st
    | some 61 => liftScalar parseBulkString st
    | some 43 => liftScalar parseSimpleString st
    | some 42 => parseArray fuel st
    | some 58 => liftScalar parseInteger st
    | some 95 => liftScalar parseNull st
    | some 35 => liftScalar parseBoolean st
    | some 44 => liftScalar parseDouble st
    | some 40 => liftScalar parseBigInt st
    | some 37 => parseMap fuel st
    | some 126 => parseSet fuel st
    | some 62 => parsePushData fuel st
    | some 45 => liftScalar parseError st
    | some 33 => liftScalar parseBlobError st
    | some 124 => parseAttribute fuel st
    | _ => handleErrorF ty st
termination_by structural fuel _ _ => fuel

/-- `parseArray` (`*`). -/
def parseArray : Nat → St → Out (Option JsVal)
  | 0, st => .thrown st [] "RangeError: Maximum call stack size exceeded"
  | fuel + 1, st =>
    match parseLength st with
    | (st2, none) => .ok st2 [] none
    | (st2, some length) =>
      match jsNewArray length with
      | .error e => .thrown st2 [] e
      | .ok responses =>
        match parseArrayElements fuel responses 0 st2 with
        | .ok st3 evs r => .ok st3 evs (r.map (fun l => JsVal.arr l))
        | .thrown st3 evs e => .thrown st3 evs e
termination_by structural fuel _ => fuel

/-- `parseArrayElements`: fill `responses` from index `i`, saving a frame
and returning `undefined` when out of data; an `attribute` sentinel from a
nested parse is skipped without filling a slot.  (The source caches
`parser.buffer.length` at entry; the buffer object only changes on paths
that return before the next iteration, so re-reading it is equivalent.) -/
def parseArrayElements : Nat → List (Option JsVal) → Int → St → Out (Option (List JsVal))
  | 0, _, _, st => .thrown st [] "RangeError: Maximum call stack size exceeded"
  | fuel + 1, responses, i, st =>
    if i < (responses.length : Int) then
      let offset := st.offset
      if st.offset ≥ (st.bufferBytes.length : Int) then
        .ok (pushAC st responses i) [] none
      else
        let ty := jsGet st.bufferBytes st.offset
        match parseType fuel ty { st with offset := st.offset + 1 } with
        | .thrown st2 evs e => .thrown st2 evs e
        | .ok st2 evs response =>
          Out.prep evs
            (match response with
             | none =>
               let st3 :=
                 if st2.arrayCache.isEmpty && st2.bufferCache.isEmpty then
                   { st2 with offset := offset }
                 else st2
               .ok (pushAC st3 responses i) [] none
             | some JsVal.attrSentinel => parseArrayElements fuel responses i st2
             | some v => parseArrayElements fuel (jsArrSet responses i v) (i + 1) st2)
    else
      .ok st [] (some (finalizeArr responses))
termination_by structural fuel _ _ _ => fuel

/-- `parseArrayChunks`: pop the most recent saved frame, resume the frames
below it first, and either store their completed value into this frame or
(when the frame count matches the recorded `attribute` depth) emit it as
the attribute map. -/
def parseArrayChunks : Nat → St → Out (Option (List JsVal))
  | 0, st => .thrown st [] "RangeError: Maximum call stack size exceeded"
  | fuel + 1, st =>
    match st.arrayCache.getLast?, st.arrayPos.getLast? with
    | some arr, some pos =>
      let st1 := { st with
        arrayCache := st.arrayCache.dropLast
        arrayPos := st.arrayPos.dropLast }
      if st1.arrayCache.isEmpty = false then
        match parseArrayChunks fuel st1 with
        | .thrown st2 evs e => .thrown st2 evs e
        | .ok st2 evs res =>
          Out.prep evs
            (match res with
             | none => .ok (pushAC st2 arr pos) [] none
             | some res =>
               if (st2.arrayCache.length : Int) ≠ st2.attrMark then
                 parseArrayElements fuel (jsArrSet arr pos (.arr res)) (pos + 1) st2
               else
                 Out.prep [.attr (.mapV (convertToMapL res))]
                   (parseArrayElements fuel arr pos { st2 with attrMark := -1 }))
      else
        parseArrayElements fuel arr pos st1
    -- `pop()` on an empty stack yields `undefined`; every caller checks
    -- `arrayCache.length` first, so this branch is unreachable.
    | _, _ => .thrown st [] "TypeError"
termination_by structural fuel _ => fuel

/-- `parseMap` (`%`): an array of `2 × length` elements, converted on
completion. -/
def parseMap : Nat → St → Out (Option JsVal)
  | 0, st => .thrown st [] "RangeError: Maximum call stack size exceeded"
  | fuel + 1, st =>
    let st := { st with returnMap := true }
    match parseLength st with
    | (st2, none) => .ok st2 [] none
    | (st2, some length) =>
      match jsNewArray (length * 2) with
      | .error e => .thrown st2 [] e
      | .ok responses =>
        match parseArrayElements fuel responses 0 st2 with
        | .thrown st3 evs e => .thrown st3 evs e
        | .ok st3 evs none => .ok st3 evs none
        | .ok st3 evs (some res) =>
          .ok { st3 with returnMap := false } evs (some (JsVal.mapV (convertToMapL res)))
termination_by structural fuel _ => fuel

/-- `parseSet` (`~`): an array wrapped in `new Set` on completion. -/
def parseSet : Nat → St → Out (Option JsVal)
  | 0, st => .thrown st [] "RangeError: Maximum call stack size exceeded"
  | fuel + 1, st =>
    let st := { st with returnSet := true }
    match parseArray fuel st with
    | .thrown st2 evs e => .thrown st2 evs e
    | .ok st2 evs none => .ok st2 evs none
    | .ok st2 evs (some v) =>
      match jsNewSet v with
      | .ok s => .ok { st2 with returnSet := false } evs (some s)
      | .error e => .thrown { st2 with returnSet := false } evs e
termination_by structural fuel _ => fuel

/-- `parseAttribute` (`|`): record the aggregate depth, parse a map, emit
it on the side channel and hand the sentinel back to the caller. -/
def parseAttribute : Nat → St → Out (Option JsVal)
  | 0, st => .thrown st [] "RangeError: Maximum call stack size exceeded"
  | fuel + 1, st =>
    let st := { st with attrMark := (st.arrayCache.length : Int) }
    match parseMap fuel st with
    | .thrown st2 evs e => .thrown st2 evs e
    | .ok st2 evs none => .ok st2 evs none
    | .ok st2 evs (some v) =>
      .ok { st2 with attrMark := -1 } (evs ++ [.attr v]) (some JsVal.attrSentinel)
termination_by structural fuel _ => fuel

/-- `parsePushData` (`>`). -/
def parsePushData : Nat → St → Out (Option JsVal)
  | 0, st => .thrown st [] "RangeError: Maximum call stack size exceeded"
  | fuel + 1, st => parseArray fuel { st with pushData := true }
termination_by structural fuel _ => fuel

end

/-! ### Multi-chunk bulk splicing -/

/-- Shared tail of `concatBulkString`/`concatBulkBuffer` after the
`offset ≤ 2` adjustment: `list[0].slice(oldOffset)`, then the chunks with
index `1 ≤ i < chunks - 1`, then `list[chunks-1].slice(0, offset - 2)`
(the trailing CRLF dropped).  Under the byte-string model the incremental
UTF-8 decoder is concatenation. -/
def concatCore (list : List (List Nat)) (oldOffset chunks offset : Int) : List Nat :=
  jsBufSliceFrom (list.getD 0 []) oldOffset ++
    ((list.drop 1).take (chunks - 2).toNat).flatten ++
    jsBufSlice (list.getD (chunks - 1).toNat []) 0 (offset - 2)

/-- `concatBulkString`: splice the cached chunks of a finished bulk string
into text, setting `parser.offset` to the read position inside the final
chunk. -/
def concatBulkString (st : St) : St × JsVal :=
  let list := st.bufferCache
  let oldOffset := st.offset
  let chunks : Int := list.length
  let offset0 : Int := st.bigStrSize - st.totalChunkSize
  let st := { st with offset := offset0 }
  if offset0 ≤ 2 then
    if chunks = 2 then
      (st, .str (jsToString (list.getD 0 [])
        oldOffset (((list.getD 0 []).length : Int) + offset0 - 2)))
    else
      (st, .str (concatCore list oldOffset (chunks - 1)
        (((list.getD (list.length - 2) []).length : Int) + offset0)))
  else (st, .str (concatCore list oldOffset chunks offset0))

/-- `concatBulkBuffer`: same splicing math, producing the byte slice the
source copies into the shared pool (the pool bookkeeping — `resizeBuffer`
— is modelled separately below; the slice handed to the callback holds
exactly these bytes). -/
def concatBulkBuffer (st : St) : St × JsVal :=
  let list := st.bufferCache
  let oldOffset := st.offset
  let chunks : Int := list.length
  let offset0 : Int := st.bigStrSize - st.totalChunkSize
  let st := { st with offset := offset0 }
  if offset0 ≤ 2 then
    if chunks = 2 then
      (st, .buf (jsBufSlice (list.getD 0 [])
        oldOffset (((list.getD 0 []).length : Int) + offset0 - 2)))
    else
      (st, .buf (concatCore list oldOffset (chunks - 1)
        (((list.getD (list.length - 2) []).length : Int) + offset0)))
  else (st, .buf (concatCore list oldOffset chunks offset0))

/-! ### `execute` -/

/-- `this.arrayCache[0][this.arrayPos[0]++] = tmp` in the multi-chunk
bulk completion path of `execute`. -/
def storeIntoFrame0 (st : St) (v : JsVal) : St :=
  match st.arrayCache, st.arrayPos with
  | arr0 :: restA, pos0 :: restP =>
    { st with arrayCache := jsArrSet arr0 pos0 v :: restA, arrayPos := (pos0 + 1) :: restP }
  | _, _ => st

/-- The decode loop at the bottom of `execute` (`while (this.offset <
this.buffer.length) …`; on normal exhaustion `this.buffer = null`). -/
def execLoop : Nat → St → Out Unit
  | 0, st => .thrown st [] "RangeError: Maximum call stack size exceeded"
  | fuel + 1, st =>
    if st.offset < (st.bufferBytes.length : Int) then
      let off0 := st.offset
      let ty := jsGet st.bufferBytes st.offset
      match parseType fuel ty { st with offset := st.offset + 1 } with
      | .thrown st2 evs e => .thrown st2 evs e
      | .ok st2 evs none =>
        Out.prep evs
          (if st2.arrayCache.isEmpty && st2.bufferCache.isEmpty then
             .ok { st2 with offset := off0 } [] ()
           else .ok st2 [] ())
      | .ok st2 evs (some v) =>
        Out.prep evs
          (match (if ty = some 45 then Out.ok st2 [Ev.err v] () else replyClosure v st2) with
           | .thrown st3 evs2 e => .thrown st3 evs2 e
           | .ok st3 evs2 _ => Out.prep evs2 (execLoop fuel st3))
    else
      .ok { st with buffer := none } [] ()
termination_by structural fuel _ => fuel

/-- `execute(buffer)`. -/
def execute (fuel : Nat) (chunk : List Nat) (st : St) : Out Unit :=
  match st.buffer with
  | none =>
    execLoop fuel { st with buffer := some chunk, offset := 0 }
  | some old =>
    if st.bigStrSize = 0 then
      let newBuffer := old.drop st.offset.toNat ++ chunk
      let st1 := { st with buffer := some newBuffer, offset := 0 }
      if st1.arrayCache.isEmpty = false then
        match parseArrayChunks fuel st1 with
        | .thrown st2 evs e => .thrown st2 evs e
        | .ok st2 evs none => .ok st2 evs ()
        | .ok st2 evs (some a) =>
          Out.prep evs
            (match replyClosure (.arr a) st2 with
             | .thrown st3 evs2 e => .thrown st3 evs2 e
             | .ok st3 evs2 _ => Out.prep evs2 (execLoop fuel st3))
      else execLoop fuel st1
    else if st.totalChunkSize + (chunk.length : Int) ≥ st.bigStrSize then
      let st1 := { st with bufferCache := st.bufferCache ++ [chunk] }
      let p := if st1.optionReturnBuffers then concatBulkBuffer st1 else concatBulkString st1
      let st2 := { p.1 with bigStrSize := 0, bufferCache := [], buffer := some chunk }
      if st2.arrayCache.isEmpty = false then
        let st3 := storeIntoFrame0 st2 p.2
        match parseArrayChunks fuel st3 with
        | .thrown st4 evs e => .thrown st4 evs e
        | .ok st4 evs none => .ok st4 evs ()
        | .ok st4 evs (some a) =>
          Out.prep evs
            (match replyClosure (.arr a) st4 with
             | .thrown st5 evs2 e => .thrown st5 evs2 e
             | .ok st5 evs2 _ => Out.prep evs2 (execLoop fuel st5))
      else
        match replyClosure p.2 st2 with
        | .thrown st3 evs2 e => .thrown st3 evs2 e
        | .ok st3 evs2 _ => Out.prep evs2 (execLoop fuel st3)
    else
      .ok
        { st with
            bufferCache := st.bufferCache ++ [chunk]
            totalChunkSize := st.totalChunkSize + (chunk.length : Int) } [] ()

/-- Fuel used for every concrete run; the decode depth of each input below
is tiny, so this is never close to exhausted. -/
def FUEL : Nat := 100

/-- Feed one chunk to a parser state. -/
def runExecute (st : St) (chunk : List Nat) : Out Unit :=
  execute FUEL chunk st

/-- Feed chunks in order, accumulating the fired callbacks; a thrown
exception stops the run (the caller's loop would abort). -/
def feedAllGo : List (List Nat) → Out Unit → Out Unit
  | [], o => o
  | c :: rest, .ok st evs _ =>
    (match execute FUEL c st with
     | .ok st' evs' _ => feedAllGo rest (.ok st' (evs ++ evs') ())
     | .thrown st' evs' e => .thrown st' (evs ++ evs') e)
  | _, .thrown st evs e => .thrown st evs e

/-- Feed a list of chunks in order. -/
def feedAll (chunks : List (List Nat)) (st : St) : Out Unit :=
  feedAllGo chunks (.ok st [] ())

def outEvents : Out α → List Ev
  | .ok _ evs _ => evs
  | .thrown _ evs _ => evs

def outState : Out α → St
  | .ok st _ _ => st
  | .thrown st _ _ => st

def outIsThrown : Out α → Bool
  | .ok _ _ _ => false
  | .thrown _ _ _ => true

/-- The callback trace from feeding `chunks` to a fresh parser. -/
def traceOf (st : St) (chunks : List (List Nat)) : List Ev :=
  outEvents (feedAll chunks st)

/-- Bytes of an ASCII string literal, for writing byte buffers legibly
(all wire literals in this file are ASCII, where the UTF-8 encoding is the
code-point sequence itself). -/
def bytesOf (s : String) : List Nat :=
  s.data.map (fun c => c.toNat)

/-! ### The shared buffer pool (`resizeBuffer`) -/

/-- The process-wide pool: backing length, write cursor, and the growth
counter (the decay timer itself is wall-clock behavior and out of the
embedding). -/
structure PoolSt : Type where
  len : Int
  off : Int
  counter : Int

/-- `var bufferPool = Buffer.allocUnsafe(32 * 1024)`. -/
def initialPool : PoolSt :=
  { len := 32 * 1024, off := 0, counter := 0 }

/-- `resizeBuffer(length)`. -/
def resizeBuffer (length : Int) (p : PoolSt) : PoolSt :=
  if p.len < length + p.off then
    let multiplier : Int := if length > 1024 * 1024 * 75 then 2 else 3
    let off' : Int := if p.off > 1024 * 1024 * 111 then 1024 * 1024 * 50 else p.off
    { len := length * multiplier + off', off := 0, counter := p.counter + 1 }
  else p

/-! ### The constructor -/

/-- A constructor option that should be a callback: absent, a function,
or some other value. -/
inductive CbVal : Type where
  | undefC
  | fn
  | other
  deriving DecidableEq, Fintype

/-- A constructor option that should be a boolean flag. -/
inductive FlagVal : Type where
  | undefF
  | flag (b : Bool)
  | otherF
  deriving DecidableEq, Fintype

/-- The recognized constructor options. -/
structure COpts : Type where
  returnError : CbVal
  returnReply : CbVal
  pushReply : CbVal
  returnBuffers : FlagVal
  stringNumbers : FlagVal
  bigInt : FlagVal
  deriving DecidableEq, Fintype

/-- The typed errors the constructor can throw. -/
inductive CtorErr : Type where
  | noOptions
  | returnErrorType
  | returnReplyType
  | pushReplyType
  | returnBuffersType
  | stringNumbersType
  | stringNumbersCombo
  | bigIntType
  | bigIntCombo
  | bigIntSupport
  deriving DecidableEq

/-- `setReturnBuffers` as called from the constructor. -/
def setReturnBuffersC (st : St) : FlagVal → Except CtorErr St
  | .flag b => .ok { st with optionReturnBuffers := b }
  | _ => .error .returnBuffersType

/-- `setStringNumbers` as called from the constructor (`optionBigInt` is
still unset at this point, so only the type check can fire there). -/
def setStringNumbersC (st : St) : FlagVal → Except CtorErr St
  | .flag b =>
    if st.optionBigInt then .error .stringNumbersCombo
    else .ok { st with optionStringNumbers := b }
  | _ => .error .stringNumbersType

/-- `setBigInt` as called from the constructor: the combination check
fires whenever `stringNumbers` was enabled, even for `bigInt: false`. -/
def setBigIntC (st : St) : FlagVal → Except CtorErr St
  | .flag b =>
    if st.optionStringNumbers then .error .bigIntCombo
    else if hasBigIntSupport = false then .error .bigIntSupport
    else .ok { st with optionBigInt := b }
  | _ => .error .bigIntType

/-- The `JavascriptRedisParser` constructor: all three callbacks are
required, then the flag setters run in source order, then `reset()`. -/
def jsCtor (opts : Option COpts) : Except CtorErr St :=
  match opts with
  | none => .error .noOptions
  | some o =>
    if o.returnError ≠ .fn then .error .returnErrorType
    else if o.returnReply ≠ .fn then .error .returnReplyType
    else if o.pushReply ≠ .fn then .error .pushReplyType
    else
      let st0 : St :=
        { optionReturnBuffers := false
          optionStringNumbers := false
          optionBigInt := false
          optionsBigInt := false
          attrMark := -1
          returnBlobError := false
          returnMap := false
          returnSet := false
          pushData := false
          offset := 0
          buffer := none
          bigStrSize := 0
          totalChunkSize := 0
          bufferCache := []
          arrayCache := []
          arrayPos := [] }
      let step1 : Except CtorErr St :=
        match o.returnBuffers with
        | .undefF => .ok st0
        | f => setReturnBuffersC st0 f
      match step1 with
      | .error e => .error e
      | .ok st1 =>
        let step2 : Except CtorErr St :=
          match o.stringNumbers with
          | .undefF => .ok st1
          | f => setStringNumbersC st1 f
        match step2 with
        | .error e => .error e
        | .ok st2 =>
          let step3 : Except CtorErr St :=
            match o.bigInt with
            | .undefF => .ok st2
            | f => setBigIntC st2 f
          match step3 with
          | .error e => .error e
          | .ok st3 => .ok (resetSt st3)

def ctorOk (opts : Option COpts) : Bool :=
  match jsCtor opts with
  | .ok _ => true
  | .error _ => false

/-- The typed error (if any) the constructor throws. -/
def ctorErrOf (opts : Option COpts) : Option CtorErr :=
  match jsCtor opts with
  | .ok _ => none
  | .error e => some e

/-- Options with both required-by-the-claim callbacks callable but the
push callback omitted. -/
def noPushOpts : COpts :=
  { returnError := .fn
    returnReply := .fn
    pushReply := .undefC
    returnBuffers := .undefF
    stringNumbers := .undefF
    bigInt := .undefF }

/-! ### Concrete parser states and wire encodings used by the proofs -/

/-- The parser state used by the concrete evaluations: a freshly
constructed parser with default options. -/
def freshParser : St := mkParser false false false

/-- The parser state with the `stringNumbers` option enabled. -/
def strNumParser : St := mkParser false true false

/-- Intermediate state after feeding `~1\r\n+` to a fresh parser: the set
flag is pending and one element frame is saved. -/
def setSplitMid : St :=
  { freshParser with
      buffer := some (bytesOf ("~1\r\n+"))
      offset := 4
      returnSet := true
      arrayCache := [[none]]
      arrayPos := [0] }

/-- `digitsVal acc ds`: the value the digit loops accumulate over `ds`. -/
def digitsVal (acc : Int) (ds : List Nat) : Int :=
  ds.foldl (fun (a : Int) (b : Nat) => a * 10 + ((b : Int) - 48)) acc

/-- The wire form of a length-prefixed payload with tag byte `tag`. -/
def encodeBulk (tag : Nat) (p : List Nat) : List Nat :=
  tag :: (decRepr p.length ++ [13, 10] ++ p ++ [13, 10])

/-! ### Loop and slicing lemmas -/

theorem get?_mid (pre : List Nat) (d : Nat) (rest : List Nat) :
    (pre ++ d :: rest).get? pre.length = some d := by
  induction pre with
  | nil => rfl
  | cons x xs ih => simpa using ih

theorem jsGet_mid (pre : List Nat) (d : Nat) (rest : List Nat) :
    jsGet (pre ++ d :: rest) (pre.length : Int) = some d := by
  unfold jsGet
  rw [if_neg (by omega)]
  simpa using get?_mid pre d rest

theorem jsByte_mid (pre : List Nat) (d : Nat) (rest : List Nat) :
    jsByte (pre ++ d :: rest) (pre.length : Int) = (d : Int) := by
  unfold jsByte
  rw [jsGet_mid]

/-- The scanning loop of `parseSimpleString` finds the first CR: it skips
any CR-free prefix and stops at the CR, whatever byte follows it. -/
theorem scanCR_skips_pre (s : List Nat) : ∀ (pre rest : List Nat) (n : Nat),
    (∀ b ∈ s, b ≠ 13) → s.length + 1 ≤ n →
    scanCR (pre ++ (s ++ 13 :: rest)) (pre.length : Int) n =
      some ((pre.length : Int) + s.length + 1) := by
  induction s with
  | nil =>
    intro pre rest n _ hn
    obtain ⟨m, rfl⟩ : ∃ m, n = m + 1 := ⟨n - 1, by omega⟩
    show scanCR (pre ++ 13 :: rest) (pre.length : Int) (m + 1) = _
    unfold scanCR
    rw [jsByte_mid]
    simp
  | cons x s ih =>
    intro pre rest n hs hn
    obtain ⟨m, rfl⟩ : ∃ m, n = m + 1 := ⟨n - 1, by omega⟩
    have hx : x ≠ 13 := hs x (List.mem_cons_self x s)
    have h1 : pre ++ ((x :: s) ++ 13 :: rest) = pre ++ x :: (s ++ 13 :: rest) := by simp
    rw [h1]
    unfold scanCR
    rw [jsByte_mid]
    rw [if_neg (by exact_mod_cast hx)]
    have h2 : pre ++ x :: (s ++ 13 :: rest) = (pre ++ [x]) ++ (s ++ 13 :: rest) := by simp
    have h3 : (pre.length : Int) + 1 = ((pre ++ [x]).length : Int) := by simp
    rw [h2, h3, ih (pre ++ [x]) rest m (fun b hb => hs b (List.mem_cons_of_mem x hb)) (by simpa using hn)]
    simp
    omega

/-- The digit-accumulating loop shared by `parseLength` and
`parseSimpleNumbers`, run over a digit sequence followed by CR. -/
theorem lengthLoop_digits (ds : List Nat) : ∀ (pre rest : List Nat) (acc : Int) (n : Nat),
    (∀ b ∈ ds, 48 ≤ b ∧ b ≤ 57) → ds.length + 1 ≤ n →
    lengthLoop (pre ++ (ds ++ 13 :: rest)) (pre.length : Int) acc n =
      some (digitsVal acc ds, (pre.length : Int) + ds.length + 2) := by
  induction ds with
  | nil =>
    intro pre rest acc n _ hn
    obtain ⟨m, rfl⟩ : ∃ m, n = m + 1 := ⟨n - 1, by omega⟩
    show lengthLoop (pre ++ 13 :: rest) (pre.length : Int) acc (m + 1) = _
    unfold lengthLoop
    rw [jsByte_mid]
    simp [digitsVal]
  | cons x s ih =>
    intro pre rest acc n hs hn
    obtain ⟨m, rfl⟩ : ∃ m, n = m + 1 := ⟨n - 1, by omega⟩
    have hx := hs x (List.mem_cons_self x s)
    have h1 : pre ++ ((x :: s) ++ 13 :: rest) = pre ++ x :: (s ++ 13 :: rest) := by simp
    rw [h1]
    unfold lengthLoop
    rw [jsByte_mid]
    rw [if_neg (by omega)]
    have h2 : pre ++ x :: (s ++ 13 :: rest) = (pre ++ [x]) ++ (s ++ 13 :: rest) := by simp
    have h3 : (pre.length : Int) + 1 = ((pre ++ [x]).length : Int) := by simp
    rw [h2, h3, ih (pre ++ [x]) rest (acc * 10 + ((x : Int) - 48)) m
      (fun b hb => hs b (List.mem_cons_of_mem x hb)) (by simpa using hn)]
    simp [digitsVal]
    omega


/-- The fuel of `decReprAux` is irrelevant once it dominates the input. -/
theorem decReprAux_inv (n : Nat) : ∀ f g : Nat, n ≤ f → n ≤ g →
    decReprAux f n = decReprAux g n := by
  induction n using Nat.strong_induction_on with
  | _ n ih =>
    intro f g hf hg
    match f, g with
    | 0, 0 => rfl
    | 0, g + 1 =>
      have : n = 0 := by omega
      subst this
      simp [decReprAux]
    | f + 1, 0 =>
      have : n = 0 := by omega
      subst this
      simp [decReprAux]
    | f + 1, g + 1 =>
      by_cases h10 : n < 10
      · simp [decReprAux, h10]
      · simp only [decReprAux, if_neg h10]
        rw [ih (n / 10) (by omega) f g (by omega) (by omega)]

theorem decRepr_lt10 (n : Nat) (h : n < 10) : decRepr n = [n + 48] := by
  unfold decRepr
  match n with
  | 0 => rfl
  | m + 1 => simp [decReprAux, h]

theorem decRepr_ge10 (n : Nat) (h : 10 ≤ n) :
    decRepr n = decRepr (n / 10) ++ [n % 10 + 48] := by
  unfold decRepr
  match n, h with
  | m + 1, h =>
    simp only [decReprAux, if_neg (by omega : ¬ m + 1 < 10)]
    rw [decReprAux_inv ((m + 1) / 10) m ((m + 1) / 10) (by omega) (le_refl _)]

theorem decRepr_step (n d : Nat) (hn : 1 ≤ n) (hd : d < 10) :
    decRepr (10 * n + d) = decRepr n ++ [d + 48] := by
  rw [decRepr_ge10 (10 * n + d) (by omega)]
  have h1 : (10 * n + d) / 10 = n := by omega
  have h2 : (10 * n + d) % 10 = d := by omega
  rw [h1, h2]

theorem decRepr_digits (n : Nat) : ∀ b ∈ decRepr n, 48 ≤ b ∧ b ≤ 57 := by
  induction n using Nat.strong_induction_on with
  | _ n ih =>
    by_cases h10 : n < 10
    · rw [decRepr_lt10 n h10]
      intro b hb
      simp at hb
      omega
    · rw [decRepr_ge10 n (by omega)]
      intro b hb
      rcases List.mem_append.mp hb with h | h
      · exact ih (n / 10) (by omega) b h
      · simp at h
        have : n % 10 < 10 := Nat.mod_lt _ (by omega)
        omega

theorem digitsVal_append (acc : Int) (xs ys : List Nat) :
    digitsVal acc (xs ++ ys) = digitsVal (digitsVal acc xs) ys := by
  unfold digitsVal
  rw [List.foldl_append]

theorem digitsVal_single (acc : Int) (d : Nat) :
    digitsVal acc [d] = acc * 10 + ((d : Int) - 48) := rfl

theorem digitsVal_decRepr (n : Nat) : digitsVal 0 (decRepr n) = (n : Int) := by
  induction n using Nat.strong_induction_on with
  | _ n ih =>
    by_cases h10 : n < 10
    · rw [decRepr_lt10 n h10, digitsVal_single]
      omega
    · rw [decRepr_ge10 n (by omega), digitsVal_append, ih (n / 10) (by omega), digitsVal_single]
      omega

theorem decRepr_ne_nil (n : Nat) : decRepr n ≠ [] := by
  by_cases h10 : n < 10
  · rw [decRepr_lt10 n h10]; simp
  · rw [decRepr_ge10 n (by omega)]; simp


theorem jsNumToStr_nonneg (m : Int) (h : 0 ≤ m) : jsNumToStr m = decRepr m.toNat := by
  unfold jsNumToStr
  rw [if_neg (by omega)]

/-- The `parseStringNumbers` loop over a digit sequence followed by CR
reproduces the digits verbatim: the output is `res` extended by the
pending accumulator's decimal digits and then the remaining digit bytes,
whatever mix of flushes, zero-appends and accumulations occurs. -/
theorem stringNumLoop_digits (ds : List Nat) :
    ∀ (pre rest res : List Nat) (number : Int) (n : Nat),
    (∀ b ∈ ds, 48 ≤ b ∧ b ≤ 57) → 0 ≤ number → ds.length + 1 ≤ n →
    stringNumLoop (pre ++ (ds ++ 13 :: rest)) (pre.length : Int) number res n =
      some (res ++ (if number = 0 then [] else jsNumToStr number) ++ ds,
            (pre.length : Int) + ds.length + 2) := by
  induction ds with
  | nil =>
    intro pre rest res number n _ hnum hn
    obtain ⟨m, rfl⟩ : ∃ m, n = m + 1 := ⟨n - 1, by omega⟩
    show stringNumLoop (pre ++ 13 :: rest) (pre.length : Int) number res (m + 1) = _
    unfold stringNumLoop
    rw [jsByte_mid]
    by_cases h0 : number = 0
    · simp [h0]
    · simp [h0]
  | cons x s ih =>
    intro pre rest res number n hs hnum hn
    obtain ⟨m, rfl⟩ : ∃ m, n = m + 1 := ⟨n - 1, by omega⟩
    have hx := hs x (List.mem_cons_self x s)
    have hrec := fun res2 num2 hnum2 => ih (pre ++ [x]) rest res2 num2 m
      (fun b hb => hs b (List.mem_cons_of_mem x hb)) hnum2 (by simpa using hn)
    have h1 : pre ++ ((x :: s) ++ 13 :: rest) = pre ++ x :: (s ++ 13 :: rest) := by simp
    have h2 : pre ++ x :: (s ++ 13 :: rest) = (pre ++ [x]) ++ (s ++ 13 :: rest) := by simp
    have h3 : (pre.length : Int) + 1 = ((pre ++ [x]).length : Int) := by simp
    have hlen : ((pre ++ [x]).length : Int) + s.length + 2 =
        (pre.length : Int) + (x :: s).length + 2 := by simp; omega
    rw [h1]
    unfold stringNumLoop
    rw [jsByte_mid]
    rw [if_neg (by omega)]
    by_cases hflush : number > 429496728
    · rw [if_pos hflush, h2, h3, hrec _ 0 (by omega)]
      have hstep : jsNumToStr (number * 10 + ((x : Int) - 48)) = jsNumToStr number ++ [x] := by
        rw [jsNumToStr_nonneg _ (by omega), jsNumToStr_nonneg _ (by omega)]
        have ht : (number * 10 + ((x : Int) - 48)).toNat = 10 * number.toNat + (x - 48) := by
          omega
        rw [ht, decRepr_step number.toNat (x - 48) (by omega) (by omega)]
        congr 2
        omega
      rw [hstep]
      rw [if_neg (by omega : ¬ number = 0)]
      simp only [if_pos rfl, hlen]
      simp
    · rw [if_neg hflush]
      by_cases hzero : (x : Int) = 48 ∧ number = 0
      · rw [if_pos hzero, h2, h3, hrec _ number hnum]
        obtain ⟨hx48, hn0⟩ := hzero
        have hx48n : x = 48 := by exact_mod_cast hx48
        subst hx48n hn0
        have hz : jsNumToStr 0 = [48] := rfl
        simp only [if_pos rfl, hz, hlen]
        simp
      · rw [if_neg hzero, h2, h3, hrec _ (number * 10 + ((x : Int) - 48)) (by omega)]
        have hne : ¬ (number * 10 + ((x : Int) - 48) = 0) := by
          rcases Decidable.em (number = 0) with h0 | h0
          · have hxne : (x : Int) ≠ 48 := fun hc => hzero ⟨hc, h0⟩
            omega
          · omega
        rw [if_neg hne]
        have hstep2 : jsNumToStr (number * 10 + ((x : Int) - 48)) =
            (if number = 0 then [] else jsNumToStr number) ++ [x] := by
          by_cases h0 : number = 0
          · subst h0
            rw [if_pos rfl, jsNumToStr_nonneg _ (by omega)]
            have ht : ((0 : Int) * 10 + ((x : Int) - 48)).toNat = x - 48 := by omega
            rw [ht, decRepr_lt10 (x - 48) (by omega)]
            simp
            omega
          · rw [if_neg h0, jsNumToStr_nonneg _ (by omega), jsNumToStr_nonneg _ (by omega)]
            have ht : (number * 10 + ((x : Int) - 48)).toNat =
                10 * number.toNat + (x - 48) := by omega
            rw [ht, decRepr_step number.toNat (x - 48) (by omega) (by omega)]
            congr 2
            omega
        rw [hstep2, hlen]
        simp


/-- `toString('utf8', pre.length, pre.length + mid.length)` extracts the
middle segment (some byte must follow it in the buffer). -/
theorem jsToString_mid (pre mid suf : List Nat) (hsuf : suf ≠ []) :
    jsToString (pre ++ mid ++ suf) (pre.length : Int)
      ((pre.length : Int) + mid.length) = mid := by
  have hS : 1 ≤ suf.length := List.length_pos.mpr hsuf
  unfold jsToString
  dsimp only
  split_ifs with h1 h2 h3 h4 h5 h6 h7 <;>
    first
      | (push_cast [List.length_append] at *; omega)
      | skip
  · have hm : mid = [] := List.length_eq_zero.mp (by push_cast at h4; omega)
    exact hm.symm
  · have hp : pre = [] := List.length_eq_zero.mp (by omega)
    subst hp
    have ht : ((0 : Int) + (mid.length : Int)).toNat = mid.length := by push_cast; omega
    simp only [List.length_nil, Nat.cast_zero] at ht ⊢
    rw [ht, List.nil_append, List.take_left' rfl]
  · have hm : mid = [] := List.length_eq_zero.mp (by push_cast at h7; omega)
    exact hm.symm
  · have ht : ((pre.length : Int) + (mid.length : Int) - (pre.length : Int)).toNat =
        mid.length := by push_cast; omega
    have hd : ((pre.length : Int)).toNat = pre.length := by omega
    rw [ht, hd, List.append_assoc, List.drop_left, List.take_left' rfl]


theorem jsIndexOf_found (p : List Nat) (h : 32 ∈ p) :
    jsIndexOf p 32 = ((p.takeWhile (fun b => b ≠ 32)).length : Int) ∧
    (p.takeWhile (fun b => b ≠ 32)).length < p.length := by
  induction p with
  | nil => simp at h
  | cons x xs ih =>
    by_cases hx : x = 32
    · subst hx
      refine ⟨?_, ?_⟩
      · unfold jsIndexOf
        rw [List.findIdx?_cons]
        simp [List.takeWhile_cons]
      · simp [List.takeWhile_cons]
    · have hmem : 32 ∈ xs := by
        rcases List.mem_cons.mp h with h1 | h1
        · exact absurd h1.symm hx
        · exact h1
      obtain ⟨ih1, ih2⟩ := ih hmem
      have htw : (x :: xs).takeWhile (fun b => b ≠ 32) =
          x :: xs.takeWhile (fun b => b ≠ 32) :=
        List.takeWhile_cons_of_pos (by simp [hx])
      refine ⟨?_, ?_⟩
      · unfold jsIndexOf at ih1 ⊢
        rw [List.findIdx?_cons]
        rw [if_neg (by simp [hx])]
        rw [List.findIdx?_succ, htw]
        match hfi : xs.findIdx? (fun b => decide (b = 32)) with
        | some i =>
          rw [hfi] at ih1
          change ((i : Int)) = _ at ih1
          show ((i + 1 : Nat) : Int) = _
          simp only [List.length_cons]
          push_cast at ih1 ⊢
          omega
        | none =>
          rw [hfi] at ih1
          change (-1 : Int) = _ at ih1
          exfalso
          omega
      · rw [htw]
        simpa using ih2

theorem jsBufSlice_zero_take (p : List Nat) (e : Int) (h0 : 0 ≤ e)
    (hle : e ≤ (p.length : Int)) :
    jsBufSlice p 0 e = p.take e.toNat := by
  unfold jsBufSlice
  dsimp only
  rw [if_neg (lt_irrefl 0)]
  rw [if_neg (by omega : ¬ e < 0)]
  have hmin0 : min (0 : Int) (p.length : Int) = 0 := by omega
  have hmine : min e (p.length : Int) = e := by omega
  rw [hmin0, hmine]
  by_cases he : e ≤ 0
  · rw [if_pos he]
    have he0 : e = 0 := by omega
    subst he0
    simp
  · rw [if_neg he]
    simp

theorem jsBufSliceFrom_drop (p : List Nat) (s1 : Int) (h0 : 0 ≤ s1) :
    jsBufSliceFrom p s1 = p.drop s1.toNat := by
  unfold jsBufSliceFrom jsBufSlice
  dsimp only
  rw [if_neg (by omega : ¬ s1 < 0)]
  rw [if_neg (by omega : ¬ (p.length : Int) < 0)]
  have hminlen : min (p.length : Int) (p.length : Int) = (p.length : Int) := by omega
  rw [hminlen]
  by_cases hge : (p.length : Int) ≤ min s1 (p.length : Int)
  · rw [if_pos hge]
    symm
    rw [List.drop_eq_nil_iff]
    omega
  · rw [if_neg hge]
    have hmins : min s1 (p.length : Int) = s1 := by omega
    rw [hmins]
    apply List.take_of_length_le
    simp only [List.length_drop]
    omega

/-! ### Scalar decoder specifications -/

/-- C6 (amended core): the simple-string scanner stops at the first CR
that has *any* byte after it — the following byte is never checked for
being LF — and emits exactly the text before that CR, consuming two bytes
past it. -/
theorem parseSimpleString_spec (st : St) (pre s : List Nat) (c : Nat) (rest : List Nat)
    (hbuf : st.buffer = some (pre ++ s ++ 13 :: c :: rest))
    (hoff : st.offset = (pre.length : Int))
    (hrb : st.optionReturnBuffers = false)
    (hs : ∀ b ∈ s, b ≠ 13) :
    parseSimpleString st =
      ({ st with offset := (pre.length : Int) + s.length + 2 }, PR.val (JsVal.str s)) := by
  have hbb : st.bufferBytes = pre ++ s ++ 13 :: c :: rest := by
    simp [St.bufferBytes, hbuf]
  unfold parseSimpleString
  rw [hbb, hoff]
  dsimp only
  have hassoc : pre ++ s ++ 13 :: c :: rest = pre ++ (s ++ 13 :: c :: rest) := by simp
  rw [hassoc]
  have hfuel : s.length + 1 ≤
      (((pre ++ (s ++ 13 :: c :: rest)).length : Int) - 1 - (pre.length : Int)).toNat := by
    simp only [List.length_append, List.length_cons, List.length_nil]
    push_cast
    omega
  rw [scanCR_skips_pre s pre (c :: rest) _ hs hfuel]
  rw [hrb]
  dsimp only
  simp only [Bool.false_eq_true, if_false]
  have hend : (pre.length : Int) + (s.length : Int) + 1 - 1 =
      (pre.length : Int) + (s.length : Int) := by ring
  have hoff2 : (pre.length : Int) + (s.length : Int) + 1 + 1 =
      (pre.length : Int) + (s.length : Int) + 2 := by ring
  rw [hend, hoff2]
  rw [← hassoc, jsToString_mid pre s (13 :: c :: rest) (by simp)]


/-- `parseStringNumbers` on an unsigned digit run terminated by CR:
verbatim digits out. -/
theorem parseStringNumbers_unsigned (st : St) (pre ds rest0 : List Nat)
    (hds : ∀ b ∈ ds, 48 ≤ b ∧ b ≤ 57)
    (hbuf : st.buffer = some (pre ++ (ds ++ 13 :: rest0)))
    (hoff : st.offset = (pre.length : Int))
    (hne : jsGet (pre ++ (ds ++ 13 :: rest0)) (pre.length : Int) ≠ some 45)
    (hr : rest0 ≠ []) :
    parseStringNumbers st =
      ({ st with offset := (pre.length : Int) + ds.length + 2 }, PR.val (JsVal.str ds)) := by
  have hbb : st.bufferBytes = pre ++ (ds ++ 13 :: rest0) := by
    simp [St.bufferBytes, hbuf]
  unfold parseStringNumbers
  rw [hbb, hoff]
  dsimp only
  simp only [if_neg hne]
  have hr1 : 1 ≤ rest0.length := List.length_pos.mpr hr
  have hfuel : ds.length + 1 ≤
      (((pre ++ (ds ++ 13 :: rest0)).length : Int) - 1 - (pre.length : Int)).toNat := by
    simp only [List.length_append, List.length_cons, List.length_nil]
    push_cast
    omega
  rw [stringNumLoop_digits ds pre rest0 [] 0 _ hds le_rfl hfuel]
  simp

/-- `parseStringNumbers` on a `-`-signed digit run terminated by CR:
the sign byte is kept and the digits follow verbatim. -/
theorem parseStringNumbers_signed (st : St) (pre ds rest0 : List Nat)
    (hds : ∀ b ∈ ds, 48 ≤ b ∧ b ≤ 57)
    (hbuf : st.buffer = some (pre ++ 45 :: (ds ++ 13 :: rest0)))
    (hoff : st.offset = (pre.length : Int)) (hr : rest0 ≠ []) :
    parseStringNumbers st =
      ({ st with offset := (pre.length : Int) + ds.length + 3 },
       PR.val (JsVal.str (45 :: ds))) := by
  have hbb : st.bufferBytes = pre ++ 45 :: (ds ++ 13 :: rest0) := by
    simp [St.bufferBytes, hbuf]
  unfold parseStringNumbers
  rw [hbb, hoff]
  dsimp only
  simp only [if_pos (jsGet_mid pre 45 (ds ++ 13 :: rest0))]
  have hsh : pre ++ 45 :: (ds ++ 13 :: rest0) = (pre ++ [45]) ++ (ds ++ 13 :: rest0) := by simp
  have hol : (pre.length : Int) + 1 = (((pre ++ [45]).length : Nat) : Int) := by
    simp only [List.length_append, List.length_cons, List.length_nil]
    push_cast
    omega
  rw [hsh, hol]
  have hr1 : 1 ≤ rest0.length := List.length_pos.mpr hr
  have hfuel : ds.length + 1 ≤
      ((((pre ++ [45]) ++ (ds ++ 13 :: rest0)).length : Int) - 1 -
        (((pre ++ [45]).length : Nat) : Int)).toNat := by
    simp only [List.length_append, List.length_cons, List.length_nil]
    push_cast
    omega
  rw [stringNumLoop_digits ds (pre ++ [45]) rest0 [45] 0 _ hds le_rfl hfuel]
  have harith : ((((pre ++ [45]).length : Nat) : Int)) + ds.length + 2 =
      (pre.length : Int) + ds.length + 3 := by
    simp only [List.length_append, List.length_cons, List.length_nil]
    push_cast
    omega
  simp only [harith]
  simp


/-- `parseLength` over a digit run terminated by CR (and at least one more
byte): the accumulated value and the offset two past the CR. -/
theorem parseLength_digits (st : St) (pre ds rest0 : List Nat)
    (hds : ∀ b ∈ ds, 48 ≤ b ∧ b ≤ 57) (hr : rest0 ≠ [])
    (hbuf : st.buffer = some (pre ++ (ds ++ 13 :: rest0)))
    (hoff : st.offset = (pre.length : Int)) :
    parseLength st =
      ({ st with offset := (pre.length : Int) + ds.length + 2 }, some (digitsVal 0 ds)) := by
  have hbb : st.bufferBytes = pre ++ (ds ++ 13 :: rest0) := by
    simp [St.bufferBytes, hbuf]
  have hr1 : 1 ≤ rest0.length := List.length_pos.mpr hr
  unfold parseLength
  rw [hbb, hoff]
  dsimp only
  have hfuel : ds.length + 1 ≤
      (((pre ++ (ds ++ 13 :: rest0)).length : Int) - 1 - (pre.length : Int)).toNat := by
    simp only [List.length_append, List.length_cons, List.length_nil]
    push_cast
    omega
  rw [lengthLoop_digits ds pre rest0 0 _ hds hfuel]

theorem encodeBulk_length (tag : Nat) (p : List Nat) :
    (encodeBulk tag p).length = (decRepr p.length).length + p.length + 5 := by
  simp [encodeBulk]
  omega

/-- `parseBulkString` on a complete, exactly-delimited frame: the payload
is returned as text and the offset lands on the end of the frame. -/
theorem parseBulkString_payload (st : St) (tag : Nat) (p : List Nat)
    (hbuf : st.buffer = some (encodeBulk tag p)) (hoff : st.offset = 1)
    (hrb : st.optionReturnBuffers = false) :
    parseBulkString st =
      ({ st with offset := ((encodeBulk tag p).length : Int) }, PR.val (JsVal.str p)) := by
  have hd := decRepr_digits p.length
  have hshape : encodeBulk tag p = [tag] ++ (decRepr p.length ++ 13 :: (10 :: p ++ [13, 10])) := by
    simp [encodeBulk]
  have hlen : parseLength st =
      ({ st with offset := (1 : Int) + (decRepr p.length).length + 2 },
        some (digitsVal 0 (decRepr p.length))) := by
    have h := parseLength_digits st [tag] (decRepr p.length) (10 :: p ++ [13, 10]) hd
      (by simp) (by rw [hbuf, hshape]) (by simpa using hoff)
    simpa using h
  unfold parseBulkString
  rw [hlen, digitsVal_decRepr]
  split
  next heq => simp at heq
  next st2X lengthX heq =>
  injection heq with h1 h2
  injection h2 with h2
  subst h1
  subst h2
  have hbb : St.bufferBytes { st with offset := (1 : Int) + (decRepr p.length).length + 2 } =
      encodeBulk tag p := by
    simp [St.bufferBytes, hbuf]
  rw [hbb]
  have hEl : ((encodeBulk tag p).length : Int) =
      (decRepr p.length).length + p.length + 5 := by
    rw [encodeBulk_length]
    push_cast
    ring
  rw [if_neg (by dsimp only; rw [hEl]; omega)]
  rw [hrb]
  dsimp only
  simp only [Bool.false_eq_true, if_false]
  have hpre2 : encodeBulk tag p =
      (tag :: (decRepr p.length ++ [13, 10])) ++ p ++ [13, 10] := by
    simp [encodeBulk]
  have hstart : (1 : Int) + (decRepr p.length).length + 2 =
      (((tag :: (decRepr p.length ++ [13, 10])).length : Nat) : Int) := by
    simp only [List.length_cons, List.length_append, List.length_nil]
    push_cast
    ring
  have hstop : (1 : Int) + (decRepr p.length).length + 2 + (p.length : Int) =
      (((tag :: (decRepr p.length ++ [13, 10])).length : Nat) : Int) + (p.length : Int) := by
    rw [← hstart]
  have hts : jsToString (encodeBulk tag p) ((1 : Int) + (decRepr p.length).length + 2)
      ((1 : Int) + (decRepr p.length).length + 2 + (p.length : Int)) = p := by
    rw [hpre2, hstart]
    exact jsToString_mid _ p [13, 10] (by simp)
  have hoffeq : (1 : Int) + (decRepr p.length).length + 2 + p.length + 2 =
      ((encodeBulk tag p).length : Int) := by
    rw [hEl]
    ring
  rw [hts, hoffeq, ← hrb]

theorem takeWhile_ne32 (code msg : List Nat) (hc : 32 ∉ code) :
    (code ++ 32 :: msg).takeWhile (fun b => b ≠ 32) = code := by
  induction code with
  | nil => simp [List.takeWhile]
  | cons x xs ih =>
    simp only [List.mem_cons, not_or] at hc
    simp only [List.cons_append, List.takeWhile_cons]
    rw [if_pos (by simpa using (Ne.symm hc.1))]
    rw [ih hc.2]

/-- `parseBlobError` on a complete frame whose payload is `code SP msg`:
the returned value is a blob error with that code and message, the
`returnBlobError` flag ends up cleared, and the offset lands on the end
of the frame. -/
theorem parseBlobError_spec (st : St) (code msg : List Nat) (hc : 32 ∉ code)
    (hbuf : st.buffer = some (encodeBulk 33 (code ++ 32 :: msg)))
    (hoff : st.offset = 1) (hrb : st.optionReturnBuffers = false) :
    parseBlobError st =
      ({ st with
          returnBlobError := false
          offset := ((encodeBulk 33 (code ++ 32 :: msg)).length : Int) },
        PR.val (JsVal.blobErr code msg)) := by
  have hbulk := parseBulkString_payload { st with returnBlobError := true } 33
    (code ++ 32 :: msg) (by simpa using hbuf) (by simpa using hoff) (by simpa using hrb)
  unfold parseBlobError
  dsimp only
  rw [hbulk]
  split
  next heq => simp at heq
  next stX resX heq =>
    injection heq with h1 h2
    injection h2 with h2
    subst h1
    subst h2
    have hmem : 32 ∈ code ++ 32 :: msg := by simp
    obtain ⟨hidx, hlt⟩ := jsIndexOf_found (code ++ 32 :: msg) hmem
    have htw : ((code ++ 32 :: msg).takeWhile (fun b => b ≠ 32)) = code :=
      takeWhile_ne32 code msg hc
    rw [htw] at hidx hlt
    unfold convertToBlobError
    dsimp only
    rw [hrb]
    simp only [Bool.false_eq_true, if_false]
    rw [hidx]
    have hcode : jsStrSlice (code ++ 32 :: msg) 0 (code.length : Int) = code := by
      unfold jsStrSlice
      rw [jsBufSlice_zero_take _ _ (by positivity) (by
        simp only [List.length_append, List.length_cons]
        push_cast
        omega)]
      rw [Int.toNat_ofNat]
      exact List.take_left code (32 :: msg)
    have hmsg : jsStrSliceFrom (code ++ 32 :: msg) ((code.length : Int) + 1) = msg := by
      unfold jsStrSliceFrom
      rw [jsBufSliceFrom_drop _ _ (by positivity)]
      have h1 : ((code.length : Int) + 1).toNat = code.length + 1 := by omega
      rw [h1]
      have h2 : code ++ 32 :: msg = (code ++ [32]) ++ msg := by simp
      have h3 : code.length + 1 = (code ++ [32]).length := by simp
      rw [h2, h3]
      exact List.drop_left (code ++ [32]) msg
    rw [hcode, hmsg]
  next stX e heq => simp at heq

/-- One unfolding of `execLoop` when the cursor has drained the buffer:
the chunk reference is dropped. -/
theorem execLoop_done (fuel : Nat) (st : St)
    (h : ¬ st.offset < (st.bufferBytes.length : Int)) :
    execLoop (fuel + 1) st = .ok { st with buffer := none } [] () := by
  unfold execLoop
  rw [if_neg h]

/-- Prepending no events is the identity on `Out`. -/
theorem Out.prep_nil (x : Out α) : Out.prep [] x = x := by
  cases x <;> simp [Out.prep]

/-- One unfolding of `execLoop` on a scalar frame whose decoder succeeds
with no events and no pending shaping flags: the decoded value goes
through the reply closure to `returnReply` and the loop continues. -/
theorem execLoop_scalar_step (fuel : Nat) (st st1 : St) (v : JsVal)
    (hlt : st.offset < (st.bufferBytes.length : Int))
    (hty : ¬ jsGet st.bufferBytes st.offset = some 45)
    (hpt : parseType fuel (jsGet st.bufferBytes st.offset) { st with offset := st.offset + 1 } =
      Out.ok st1 [] (some v))
    (hattr : st1.attrMark = -1) (hpush : st1.pushData = false)
    (hset : st1.returnSet = false) (hmap : st1.returnMap = false)
    (hblob : st1.returnBlobError = false) :
    execLoop (fuel + 1) st = Out.prep [Ev.reply v] (execLoop fuel st1) := by
  conv_lhs => unfold execLoop
  rw [if_pos hlt]
  dsimp only
  rw [hpt]
  split
  next heq => simp at heq
  next st2X evsX heq => simp at heq
  next st2X evsX vX heq =>
    injection heq with h1 h2 h3
    injection h3 with h3
    subst h1
    subst h2
    subst h3
    rw [if_neg hty]
    unfold replyClosure
    rw [if_neg (not_not.mpr hattr)]
    rw [hpush, hset, hmap, hblob]
    simp only [Bool.false_eq_true, if_false]
    rw [Out.prep_nil]

/-- `execute` on a parser with no buffered bytes, fed one chunk holding a
single complete scalar reply: the value is delivered through
`returnReply` and the drained chunk reference is dropped. -/
theorem execute_scalar (st0 st1 : St) (c : List Nat) (v : JsVal)
    (hb : st0.buffer = none) (hc : 0 < c.length)
    (hty : ¬ jsGet c 0 = some 45)
    (hpt : parseType 99 (jsGet c 0) { st0 with buffer := some c, offset := 0 + 1 } =
      Out.ok st1 [] (some v))
    (hattr : st1.attrMark = -1) (hpush : st1.pushData = false)
    (hset : st1.returnSet = false) (hmap : st1.returnMap = false)
    (hblob : st1.returnBlobError = false)
    (hoff : st1.offset = (c.length : Int))
    (hbuf1 : st1.bufferBytes = c) :
    execute FUEL c st0 = Out.ok { st1 with buffer := none } [Ev.reply v] () := by
  have h1 : execute FUEL c st0 = execLoop 100 { st0 with buffer := some c, offset := 0 } := by
    unfold execute
    rw [hb]
    rfl
  rw [h1]
  have h2 : execLoop 100 { st0 with buffer := some c, offset := 0 } =
      Out.prep [Ev.reply v] (execLoop 99 st1) := by
    refine execLoop_scalar_step 99 _ st1 v ?_ ?_ ?_ hattr hpush hset hmap hblob
    case _ => simpa [St.bufferBytes] using hc
    case _ => simpa [St.bufferBytes] using hty
    case _ => exact hpt
  rw [h2]
  rw [show execLoop 99 st1 = Out.ok { st1 with buffer := none } [] () from
    execLoop_done 98 st1 (by rw [hoff, hbuf1]; omega)]
  simp [Out.prep]

/-! ### Claim theorems -/

set_option maxRecDepth 8000

/-- C1: feeding `~1\r\n+a\r\n` whole delivers the decoded set through
`returnReply`, while feeding the same bytes as `~1\r\n+` then `a\r\n`
delivers it through `pushReply` (the reply closure routes a pending-set
completion to the push callback), so the two callback traces differ —
against the claim that any split of the byte stream produces an identical
callback sequence. -/
theorem chunk_split_changes_callback_channel :
    traceOf freshParser [bytesOf ("~1\r\n+a\r\n")] =
      [Ev.reply (JsVal.setV [JsVal.str [97]])] ∧
    traceOf freshParser [bytesOf ("~1\r\n+"), bytesOf ("a\r\n")] =
      [Ev.push (JsVal.setV [JsVal.str [97]])] := by
  constructor
  · rfl
  · have h1 : execute FUEL (bytesOf ("~1\r\n+")) freshParser = Out.ok setSplitMid [] () := rfl
    have h2 : execute FUEL (bytesOf ("a\r\n")) setSplitMid =
        Out.ok { freshParser with buffer := none, offset := 4 }
          [Ev.push (JsVal.setV [JsVal.str [97]])] () := rfl
    simp only [traceOf, feedAll, feedAllGo, h1, h2, List.nil_append, outEvents]

/-- C4: `$-1\r\n` does not produce a `Null` reply — the `-` byte is folded
into the digit accumulator (length `-29`), the empty slice is delivered as
an empty-string reply, and the loop then trips a fatal protocol error at
the corrupted negative offset; `*-1\r\n` throws a `RangeError` out of
`new Array(-29)` with no callback at all. -/
theorem negative_length_not_null_eval :
    traceOf freshParser [bytesOf ("$-1\r\n")] =
      [Ev.reply (JsVal.str []),
       Ev.fatal none (some (bytesOf ("$-1\r\n"))) (-21)] ∧
    outIsThrown (feedAll [bytesOf ("*-1\r\n")] freshParser) = true ∧
    outEvents (feedAll [bytesOf ("*-1\r\n")] freshParser) = [] := by
  exact ⟨rfl, rfl, rfl⟩

/-- C7: a top-level attribute frame (`|0\r\n`) first emits the attribute
map on the side channel, but the outer decode loop then hands the internal
attribute sentinel to `returnReply` — the top-level loop lacks the
`response !== attribute` guard that `parseArrayElements` has, so the
pseudo-value is not silently discarded as the specification states. -/
theorem top_level_attribute_sentinel_reply_eval :
    traceOf freshParser [bytesOf ("|0\r\n")] =
      [Ev.attr (JsVal.mapV []), Ev.reply JsVal.attrSentinel] := rfl

/-- C2 counterexample: the complete blob-error reply `!3\r\na b\r\n` is
delivered through `returnReply` (as a decoded error value with code `a`
and message `b`); no `returnError` invocation occurs, contrary to the
claim that blob errors are delivered via `on_error`. -/
theorem blob_error_goes_to_reply_callback_cex :
    traceOf freshParser [bytesOf ("!3\r\na b\r\n")] =
      [Ev.reply (JsVal.blobErr [97] [98])] ∧
    (traceOf freshParser [bytesOf ("!3\r\na b\r\n")]).all
      (fun e => !(Ev.isErrEv e)) = true := by
  exact ⟨rfl, rfl⟩

/-- C3 counterexample: a protocol error inside a pending aggregate
(`*2\r\n@`) fires `returnFatalError` and nulls the buffer, but the saved
aggregate frame survives in `arrayCache`/`arrayPos` — the internal state
is *not* reset to its initial values as the claim asserts. -/
theorem fatal_error_keeps_array_stack_cex :
    outEvents (feedAll [bytesOf ("*2\r\n@")] freshParser) =
      [Ev.fatal (some 64) (some (bytesOf ("*2\r\n@"))) 5] ∧
    (outState (feedAll [bytesOf ("*2\r\n@")] freshParser)).buffer = none ∧
    (outState (feedAll [bytesOf ("*2\r\n@")] freshParser)).arrayCache.length = 1 ∧
    (outState (feedAll [bytesOf ("*2\r\n@")] freshParser)).arrayPos = [0] := by
  exact ⟨rfl, rfl, rfl, rfl⟩

/-- C3 (amended): `handleError` delivers the `ParserError` (offending
byte, buffer snapshot, offset) through the fatal callback and clears
*only* `buffer`; the chunk cache, aggregate stack, pending bulk length and
shaping flags all retain their values (they are cleared only by
`reset()`). -/
theorem handle_error_clears_only_buffer (ty : Option Nat) (st : St) :
    handleErrorF ty st =
      Out.ok { st with buffer := none } [Ev.fatal ty st.buffer st.offset] none ∧
    (outState (handleErrorF ty st)).bufferCache = st.bufferCache ∧
    (outState (handleErrorF ty st)).arrayCache = st.arrayCache ∧
    (outState (handleErrorF ty st)).arrayPos = st.arrayPos ∧
    (outState (handleErrorF ty st)).bigStrSize = st.bigStrSize ∧
    (outState (handleErrorF ty st)).returnBlobError = st.returnBlobError ∧
    (outState (handleErrorF ty st)).returnMap = st.returnMap ∧
    (outState (handleErrorF ty st)).returnSet = st.returnSet ∧
    (outState (handleErrorF ty st)).pushData = st.pushData ∧
    (outState (handleErrorF ty st)).attrMark = st.attrMark := by
  exact ⟨rfl, rfl, rfl, rfl, rfl, rfl, rfl, rfl, rfl, rfl⟩

/-- C6 counterexample: in `+a\rb\r\n` the first CR is not followed by LF,
yet the scanner accepts it as the terminator: the emitted text is `a`
(not `a\rb`, which ends at the first CR-LF pair), and the decode loop then
faults on the byte following the phantom line. -/
theorem simple_string_accepts_lone_cr_cex :
    traceOf freshParser [bytesOf ("+a\rb\r\n")] =
      [Ev.reply (JsVal.str [97]),
       Ev.fatal (some 13) (some (bytesOf ("+a\rb\r\n"))) 5] ∧
    ([97] : List Nat) ≠ [97, 13, 98] := by
  exact ⟨rfl, by decide⟩

/-- C9: whenever the free space of the pool (`len - off`) is smaller than
a requested splice length `L`, the pool is reallocated to exactly
`L × 2 + carry` bytes when `L > 75 MiB` and `L × 3 + carry` otherwise,
where `carry` is the old write cursor clamped to 50 MiB when it exceeds
111 MiB; the write cursor resets to 0; and the initial pool is 32 KiB. -/
theorem resize_buffer_policy (L : Int) (p : PoolSt) (h : p.len - p.off < L) :
    (resizeBuffer L p).len =
      L * (if L > 1024 * 1024 * 75 then 2 else 3) +
        (if p.off > 1024 * 1024 * 111 then 1024 * 1024 * 50 else p.off) ∧
    (resizeBuffer L p).off = 0 ∧
    initialPool.len = 32 * 1024 := by
  have hc : p.len < L + p.off := by omega
  refine ⟨?_, ?_, rfl⟩ <;>
    simp only [resizeBuffer, if_pos hc]

theorem resize_buffer_policy_witness :
    (initialPool.len - initialPool.off < 100000) ∧
    ((resizeBuffer 100000 initialPool).len =
      100000 * (if (100000 : Int) > 1024 * 1024 * 75 then 2 else 3) +
        (if initialPool.off > 1024 * 1024 * 111 then 1024 * 1024 * 50 else initialPool.off) ∧
    (resizeBuffer 100000 initialPool).off = 0 ∧
    initialPool.len = 32 * 1024) :=
  ⟨by decide, resize_buffer_policy 100000 initialPool (by decide)⟩

/-- C10: with at least three bytes left after the `#` tag, the boolean
decoder consumes exactly three bytes, fires no callback and raises no
protocol error, and yields `true` exactly when the first of the three
bytes is `t` (116) — the first byte is otherwise unvalidated and the two
trailing bytes are never inspected, so a malformed frame such as `#x??`
decodes to `false` without error. -/
theorem parse_boolean_three_bytes (n : Nat) (st : St) (buf : List Nat)
    (hb : st.buffer = some buf)
    (h3 : st.offset + 3 ≤ (buf.length : Int)) :
    parseType (n + 1) (some 35) st =
      Out.ok { st with offset := st.offset + 3 } []
        (some (JsVal.boolV (jsGet buf st.offset = some 116))) := by
  have hbb : st.bufferBytes = buf := by simp [St.bufferBytes, hb]
  have hno : ¬ (st.offset + 3 > (buf.length : Int)) := by omega
  simp only [parseType, liftScalar, parseBoolean, hbb, if_neg hno]

theorem parse_boolean_three_bytes_witness :
    ({ freshParser with buffer := some (bytesOf ("#x??")), offset := 1 } : St).buffer =
        some (bytesOf ("#x??")) ∧
    (({ freshParser with buffer := some (bytesOf ("#x??")), offset := 1 } : St).offset + 3 ≤
        ((bytesOf ("#x??")).length : Int)) ∧
    parseType 7 (some 35) { freshParser with buffer := some (bytesOf ("#x??")), offset := 1 } =
      Out.ok { freshParser with buffer := some (bytesOf ("#x??")), offset := 4 } []
        (some (JsVal.boolV false)) := by
  refine ⟨rfl, by decide, ?_⟩
  have h := parse_boolean_three_bytes 6
    { freshParser with buffer := some (bytesOf ("#x??")), offset := 1 }
    (bytesOf ("#x??")) rfl (by decide)
  simpa using h


/-- C8 counterexample: with callable `returnError` and `returnReply` but
no `pushReply`, construction fails with the typed pushReply error — the
push callback is required, not optional. -/
theorem ctor_requires_push_reply_cex :
    noPushOpts.returnError = CbVal.fn ∧ noPushOpts.returnReply = CbVal.fn ∧
    ctorOk (some noPushOpts) = false ∧
    ctorErrOf (some noPushOpts) = some CtorErr.pushReplyType := by
  decide

/-- C8 (amended): construction succeeds exactly when all three callbacks
(`returnError`, `returnReply`, `pushReply`) are callable, every provided
mode flag is a boolean, and `bigInt` is not provided (even as `false`)
while `stringNumbers` is enabled; otherwise a typed invalid-argument
error is thrown (missing options object included). -/
theorem ctor_success_characterization (o : COpts) :
    ctorOk (some o) = true ↔
      (o.returnError = CbVal.fn ∧ o.returnReply = CbVal.fn ∧ o.pushReply = CbVal.fn ∧
       o.returnBuffers ≠ FlagVal.otherF ∧ o.stringNumbers ≠ FlagVal.otherF ∧
       o.bigInt ≠ FlagVal.otherF ∧
       ¬(o.stringNumbers = FlagVal.flag true ∧ o.bigInt ≠ FlagVal.undefF)) := by
  obtain ⟨re, rr, pr, rb, sn, bi⟩ := o
  cases re <;> cases rr <;> cases pr <;>
    rcases rb with _ | (_ | _) | _ <;> rcases sn with _ | (_ | _) | _ <;>
    rcases bi with _ | (_ | _) | _ <;> decide

/-- C2 (amended): a complete blob-error reply (type byte `!`, then a
length-prefixed payload `code SP message`) is decoded into an error value
carrying the payload bytes before the first space as its code and the
bytes after that space as its message, but the value is delivered through
`returnReply` — the ordinary reply callback — not through `returnError`. -/
theorem blob_error_code_message_reply (code msg : List Nat) (hc : 32 ∉ code) :
    outEvents (runExecute freshParser (encodeBulk 33 (code ++ 32 :: msg))) =
      [Ev.reply (JsVal.blobErr code msg)] := by
  have hspec := parseBlobError_spec
    { freshParser with buffer := some (encodeBulk 33 (code ++ 32 :: msg)), offset := 0 + 1 }
    code msg hc rfl rfl rfl
  have hty0 : jsGet (encodeBulk 33 (code ++ 32 :: msg)) 0 = some 33 := rfl
  have hpt : parseType 99 (jsGet (encodeBulk 33 (code ++ 32 :: msg)) 0)
      { freshParser with buffer := some (encodeBulk 33 (code ++ 32 :: msg)), offset := 0 + 1 } =
      Out.ok
        { freshParser with
            buffer := some (encodeBulk 33 (code ++ 32 :: msg))
            offset := ((encodeBulk 33 (code ++ 32 :: msg)).length : Int)
            returnBlobError := false }
        [] (some (JsVal.blobErr code msg)) := by
    rw [hty0]
    show liftScalar parseBlobError _ = _
    unfold liftScalar
    rw [hspec]
  have hrun := execute_scalar freshParser _ (encodeBulk 33 (code ++ 32 :: msg))
    (JsVal.blobErr code msg) rfl (by simp [encodeBulk]) (by rw [hty0]; decide) hpt
    rfl rfl rfl rfl rfl rfl rfl
  show outEvents (execute FUEL (encodeBulk 33 (code ++ 32 :: msg)) freshParser) = _
  rw [hrun]
  rfl

theorem blob_error_code_message_reply_witness :
    (32 ∉ bytesOf ("SYNTAX")) ∧
    outEvents (runExecute freshParser
      (encodeBulk 33 (bytesOf ("SYNTAX") ++ 32 :: bytesOf ("invalid syntax")))) =
      [Ev.reply (JsVal.blobErr (bytesOf ("SYNTAX")) (bytesOf ("invalid syntax")))] :=
  ⟨by decide, blob_error_code_message_reply (bytesOf ("SYNTAX")) (bytesOf ("invalid syntax"))
    (by decide)⟩

/-- C6 (amended): the simple-string scanner stops at the first CR that has
any byte after it at all — the follow byte is never checked for being LF —
and the emitted reply is exactly the text before that CR. -/
theorem simple_string_stops_at_first_cr (s : List Nat) (c : Nat)
    (hs : ∀ b ∈ s, b ≠ 13) :
    outEvents (runExecute freshParser (43 :: (s ++ [13, c]))) =
      [Ev.reply (JsVal.str s)] := by
  have hspec := parseSimpleString_spec
    { freshParser with buffer := some (43 :: (s ++ [13, c])), offset := 0 + 1 }
    [43] s c [] (by simp) rfl rfl hs
  have hty0 : jsGet (43 :: (s ++ [13, c])) 0 = some 43 := rfl
  have hpt : parseType 99 (jsGet (43 :: (s ++ [13, c])) 0)
      { freshParser with buffer := some (43 :: (s ++ [13, c])), offset := 0 + 1 } =
      Out.ok
        { freshParser with
            buffer := some (43 :: (s ++ [13, c]))
            offset := (([43].length : Nat) : Int) + s.length + 2 }
        [] (some (JsVal.str s)) := by
    rw [hty0]
    show liftScalar parseSimpleString _ = _
    unfold liftScalar
    rw [hspec]
  have hrun := execute_scalar freshParser _ (43 :: (s ++ [13, c]))
    (JsVal.str s) rfl (by simp) (by rw [hty0]; decide) hpt
    rfl rfl rfl rfl rfl
    (by
      show (([43].length : Nat) : Int) + s.length + 2 = _
      simp only [List.length_cons, List.length_append, List.length_nil]
      push_cast
      ring)
    rfl
  show outEvents (execute FUEL (43 :: (s ++ [13, c])) freshParser) = _
  rw [hrun]
  rfl

theorem simple_string_stops_at_first_cr_witness :
    (∀ b ∈ bytesOf ("OK"), b ≠ 13) ∧
    outEvents (runExecute freshParser (43 :: (bytesOf ("OK") ++ [13, 88]))) =
      [Ev.reply (JsVal.str (bytesOf ("OK")))] :=
  ⟨by decide, simple_string_stops_at_first_cr (bytesOf ("OK")) 88 (by decide)⟩

/-- C5: with the `stringNumbers` option set, an integer reply `:` followed
by an optional minus sign, decimal digits and CRLF is returned as a string
holding exactly the verbatim text between `:` and CR — the sign kept, no
digit dropped, leading and interior zeros preserved — whatever the
magnitude. -/
theorem string_numbers_verbatim (sgn : Bool) (ds : List Nat)
    (hds : ∀ b ∈ ds, 48 ≤ b ∧ b ≤ 57) :
    outEvents (runExecute strNumParser
      (58 :: ((if sgn then [45] else []) ++ (ds ++ [13, 10])))) =
      [Ev.reply (JsVal.str ((if sgn then [45] else []) ++ ds))] := by
  cases sgn
  case false =>
    show outEvents (runExecute strNumParser (58 :: ([] ++ (ds ++ [13, 10])))) =
      [Ev.reply (JsVal.str ([] ++ ds))]
    have hne : jsGet ([58] ++ (ds ++ 13 :: [10])) (([58].length : Nat) : Int) ≠ some 45 := by
      cases ds with
      | nil =>
        have h := jsGet_mid [58] 13 [10]
        simp only [List.nil_append] at h ⊢
        rw [h]
        decide
      | cons d ds2 =>
        have h := jsGet_mid [58] d (ds2 ++ 13 :: [10])
        have hsh : [58] ++ (d :: ds2 ++ 13 :: [10]) = [58] ++ d :: (ds2 ++ 13 :: [10]) := by
          simp
        rw [hsh, h]
        have hd := hds d (by simp)
        intro hcon
        injection hcon with hcon
        omega
    have hspec := parseStringNumbers_unsigned
      { strNumParser with buffer := some (58 :: ([] ++ (ds ++ [13, 10]))), offset := 0 + 1 }
      [58] ds [10] hds (by simp) rfl hne (by decide)
    have hty0 : jsGet (58 :: ([] ++ (ds ++ [13, 10]))) 0 = some 58 := rfl
    have hpt : parseType 99 (jsGet (58 :: ([] ++ (ds ++ [13, 10]))) 0)
        { strNumParser with buffer := some (58 :: ([] ++ (ds ++ [13, 10]))), offset := 0 + 1 } =
        Out.ok
          { strNumParser with
              buffer := some (58 :: ([] ++ (ds ++ [13, 10])))
              offset := (([58].length : Nat) : Int) + ds.length + 2 }
          [] (some (JsVal.str ds)) := by
      rw [hty0]
      show liftScalar parseInteger _ = _
      unfold liftScalar parseInteger
      split_ifs with hsn hbi
      · rw [hspec]
      · exact absurd (by rfl) hsn
      · exact absurd (by rfl) hsn
    have hrun := execute_scalar strNumParser _ (58 :: ([] ++ (ds ++ [13, 10])))
      (JsVal.str ds) rfl (by simp) (by rw [hty0]; decide) hpt
      rfl rfl rfl rfl rfl
      (by
        show (([58].length : Nat) : Int) + ds.length + 2 = _
        simp only [List.length_cons, List.length_append, List.length_nil]
        push_cast
        ring)
      rfl
    show outEvents (execute FUEL (58 :: ([] ++ (ds ++ [13, 10]))) strNumParser) = _
    rw [hrun]
    simp [outEvents]
  case true =>
    show outEvents (runExecute strNumParser (58 :: ([45] ++ (ds ++ [13, 10])))) =
      [Ev.reply (JsVal.str ([45] ++ ds))]
    have hspec := parseStringNumbers_signed
      { strNumParser with buffer := some (58 :: ([45] ++ (ds ++ [13, 10]))), offset := 0 + 1 }
      [58] ds [10] hds (by simp) rfl (by decide)
    have hty0 : jsGet (58 :: ([45] ++ (ds ++ [13, 10]))) 0 = some 58 := rfl
    have hpt : parseType 99 (jsGet (58 :: ([45] ++ (ds ++ [13, 10]))) 0)
        { strNumParser with buffer := some (58 :: ([45] ++ (ds ++ [13, 10]))), offset := 0 + 1 } =
        Out.ok
          { strNumParser with
              buffer := some (58 :: ([45] ++ (ds ++ [13, 10])))
              offset := (([58].length : Nat) : Int) + ds.length + 3 }
          [] (some (JsVal.str (45 :: ds))) := by
      rw [hty0]
      show liftScalar parseInteger _ = _
      unfold liftScalar parseInteger
      split_ifs with hsn hbi
      · rw [hspec]
      · exact absurd (by rfl) hsn
      · exact absurd (by rfl) hsn
    have hrun := execute_scalar strNumParser _ (58 :: ([45] ++ (ds ++ [13, 10])))
      (JsVal.str (45 :: ds)) rfl (by simp) (by rw [hty0]; decide) hpt
      rfl rfl rfl rfl rfl
      (by
        show (([58].length : Nat) : Int) + ds.length + 3 = _
        simp only [List.length_cons, List.length_append, List.length_nil]
        push_cast
        ring)
      rfl
    show outEvents (execute FUEL (58 :: ([45] ++ (ds ++ [13, 10]))) strNumParser) = _
    rw [hrun]
    simp [outEvents]

theorem string_numbers_verbatim_witness :
    (∀ b ∈ bytesOf ("590295810358705700002"), 48 ≤ b ∧ b ≤ 57) ∧
    outEvents (runExecute strNumParser
      (58 :: ((if true then [45] else []) ++ (bytesOf ("590295810358705700002") ++ [13, 10])))) =
      [Ev.reply (JsVal.str ((if true then [45] else []) ++ bytesOf ("590295810358705700002")))] :=
  ⟨by decide, string_numbers_verbatim true (bytesOf ("590295810358705700002")) (by decide)⟩

end RedisParser
